import Mathlib

/-!
Verification of the event-aggregation core of `mocha-parallel-tests`
(`src/lib/reporter.js`): per-worker buffering of mocha runner events,
interception of standard-stream messages, the timestamp/weight/index merge
order replayed on a worker's `end` event, the shared reporter singleton,
and the completion barrier on `testsFinished`.

The module is embedded as an explicit state machine: module-level mutable
variables become fields of `GState`, and the event listeners become the
branches of `stepFn`, driven by a list of input `Step`s (each carrying the
`Date.now()` value observed by the listener as an explicit timestamp).
JavaScript's stable `Array.prototype.sort` on the total comparator is
modelled by a stable insertion sort over the same comparator.
-/

namespace Reporter

/-- One of the two standard streams intercepted by `lib/watcher.js`. -/
inductive StreamName
  | stdout
  | stderr
deriving DecidableEq, Repr

/-- Opaque event arguments (`...args` of a runner listener). -/
abbrev Payload := List String

/-- The eight runner event names of `RUNNER_EVENTS` in `src/lib/reporter.js`:
`suite`, `suite end`, `test`, `pending`, `pass`, `test end`, `fail`, `failRetry`. -/
inductive EventType
  | suite
  | suiteEnd
  | test
  | pending
  | pass
  | testEnd
  | fail
  | failRetry
deriving DecidableEq, Repr

/-- An intercepted standard-stream message as stored in `stdMessagesMap`:
`{streamName, message, timestamp: Date.now()}`. -/
structure CapturedMessage where
  streamName : StreamName
  message : String
  timestamp : Nat
deriving DecidableEq, Repr

/-- A buffered runner event as stored by `_storeEventData`:
`{type: eventType, data: args, timestamp: Date.now()}`. -/
structure StoredEvent where
  type : EventType
  data : Payload
  timestamp : Nat
deriving DecidableEq, Repr

/-- The `meta` part of an entry of `allEvents` in the `end` handler. -/
structure MergedMeta where
  index : Nat
  timestamp : Nat
deriving DecidableEq, Repr

/-- The `type`/`payload` part of an entry of `allEvents`: either a buffered
runner event or an intercepted standard-stream message. -/
inductive MergedPayload
  | runnerEvent (type : EventType) (data : Payload)
  | stdStreamMessage (streamName : StreamName) (message : String)
deriving DecidableEq, Repr

/-- An entry of the `allEvents` array built in the `end` handler. -/
structure MergedEvent where
  payload : MergedPayload
  meta : MergedMeta
deriving DecidableEq, Repr

/-- `(a.type === 'runnerEvent') ? 1 : 0` of the sort comparator. -/
def eventWeight (e : MergedEvent) : Int :=
  match e.payload with
  | .runnerEvent _ _ => 1
  | .stdStreamMessage _ _ => 0

/-- The sort comparator of the `end` handler: timestamp difference, then
event-weight difference, then buffering-index difference. -/
def mergeComparator (a b : MergedEvent) : Int :=
  let timestampDiff : Int := (a.meta.timestamp : Int) - (b.meta.timestamp : Int)
  if timestampDiff ≠ 0 then timestampDiff
  else
    let weightDiff : Int := eventWeight a - eventWeight b
    if weightDiff ≠ 0 then weightDiff
    else (a.meta.index : Int) - (b.meta.index : Int)

/-- `a` may be placed no later than `b`: the comparator is nonpositive. -/
def mergeLE (a b : MergedEvent) : Prop := mergeComparator a b ≤ 0

instance : DecidableRel mergeLE := fun a b => by
  unfold mergeLE
  infer_instance

/-- The merge order spelled out as a lexicographic key: timestamp ascending,
then type weight (a message weighs 0, a runner event 1), then buffering
index ascending. -/
def mergeKeyLE (a b : MergedEvent) : Prop :=
  a.meta.timestamp < b.meta.timestamp
    ∨ (a.meta.timestamp = b.meta.timestamp
        ∧ (eventWeight a < eventWeight b
            ∨ (eventWeight a = eventWeight b ∧ a.meta.index ≤ b.meta.index)))

instance : DecidableRel mergeKeyLE := fun a b => by
  unfold mergeKeyLE
  infer_instance

/-- Tag each buffered runner event with its buffering index
(`_eventsNotEmited.forEach((eventData, index) => ...)`). -/
def tagRunnerEvents : Nat → List StoredEvent → List MergedEvent
  | _, [] => []
  | i, e :: t => ⟨.runnerEvent e.type e.data, ⟨i, e.timestamp⟩⟩ :: tagRunnerEvents (i + 1) t

/-- Tag each intercepted message with its index
(`(stdMessagesMap.get(this._testFile) || []).forEach((data, index) => ...)`). -/
def tagStreamMessages : Nat → List CapturedMessage → List MergedEvent
  | _, [] => []
  | i, m :: t => ⟨.stdStreamMessage m.streamName m.message, ⟨i, m.timestamp⟩⟩ :: tagStreamMessages (i + 1) t

/-- The `allEvents` array of the `end` handler: all buffered runner events,
then all intercepted messages, each tagged with its own index. -/
def buildAllEvents (events : List StoredEvent) (messages : List CapturedMessage) : List MergedEvent :=
  tagRunnerEvents 0 events ++ tagStreamMessages 0 messages

/-- `allEvents.sort(comparator)`: a stable sort by the nonpositive-comparator
order, modelled by insertion sort. -/
def sortMergedEvents (l : List MergedEvent) : List MergedEvent :=
  l.insertionSort mergeLE

/-- The comparator order of the source is exactly the lexicographic
(timestamp, type weight, buffering index) order. -/
theorem mergeLE_iff (a b : MergedEvent) : mergeLE a b ↔ mergeKeyLE a b := by
  simp only [mergeLE, mergeComparator, mergeKeyLE]
  split_ifs with h1 h2 <;> omega

theorem mergeKeyLE_total (a b : MergedEvent) : mergeKeyLE a b ∨ mergeKeyLE b a := by
  unfold mergeKeyLE
  omega

theorem mergeKeyLE_trans {a b c : MergedEvent} (h1 : mergeKeyLE a b) (h2 : mergeKeyLE b c) :
    mergeKeyLE a c := by
  unfold mergeKeyLE at h1 h2 ⊢
  omega

instance : IsTotal MergedEvent mergeLE :=
  ⟨fun a b => by
    rw [mergeLE_iff, mergeLE_iff]
    exact mergeKeyLE_total a b⟩

instance : IsTrans MergedEvent mergeLE :=
  ⟨fun a b c h1 h2 => by
    rw [mergeLE_iff] at h1 h2 ⊢
    exact mergeKeyLE_trans h1 h2⟩

/-- Two sorted lists that are permutations of each other coincide, provided
the order is antisymmetric on the elements involved. -/
theorem sortedPermEq {α : Type} {le : α → α → Prop} (l₁ : List α) :
    ∀ l₂ : List α, l₁.Perm l₂ → l₁.Pairwise le → l₂.Pairwise le →
      (∀ a ∈ l₁, ∀ b ∈ l₁, le a b → le b a → a = b) → l₁ = l₂ := by
  induction l₁ with
  | nil =>
    intro l₂ hp _ _ _
    exact hp.nil_eq
  | cons a t₁ ih =>
    intro l₂ hp hs₁ hs₂ hanti
    cases l₂ with
    | nil => exact absurd hp.symm.nil_eq (by simp)
    | cons b t₂ =>
      have hab : a = b := by
        have hamem : a ∈ b :: t₂ := hp.subset (List.mem_cons_self a t₁)
        have hbmem : b ∈ a :: t₁ := hp.symm.subset (List.mem_cons_self b t₂)
        rcases List.mem_cons.mp hamem with h | hat₂
        · exact h
        rcases List.mem_cons.mp hbmem with h | hbt₁
        · exact h.symm
        have h1 : le a b := (List.pairwise_cons.mp hs₁).1 b hbt₁
        have h2 : le b a := (List.pairwise_cons.mp hs₂).1 a hat₂
        exact hanti a (List.mem_cons_self a t₁) b hbmem h1 h2
      subst hab
      have ht : t₁ = t₂ :=
        ih t₂ hp.cons_inv (List.pairwise_cons.mp hs₁).2 (List.pairwise_cons.mp hs₂).2
          (fun x hx y hy => hanti x (List.mem_cons_of_mem a hx) y (List.mem_cons_of_mem a hy))
      rw [ht]

theorem mem_tagRunnerEvents {e : MergedEvent} :
    ∀ {i : Nat} {l : List StoredEvent}, e ∈ tagRunnerEvents i l →
      eventWeight e = 1 ∧ i ≤ e.meta.index := by
  intro i l
  induction l generalizing i with
  | nil => intro h; cases h
  | cons x t ih =>
    intro h
    rcases List.mem_cons.mp h with rfl | h
    · exact ⟨rfl, Nat.le_refl _⟩
    · have := ih h
      exact ⟨this.1, Nat.le_of_succ_le this.2⟩

theorem mem_tagStreamMessages {e : MergedEvent} :
    ∀ {i : Nat} {l : List CapturedMessage}, e ∈ tagStreamMessages i l →
      eventWeight e = 0 ∧ i ≤ e.meta.index := by
  intro i l
  induction l generalizing i with
  | nil => intro h; cases h
  | cons x t ih =>
    intro h
    rcases List.mem_cons.mp h with rfl | h
    · exact ⟨rfl, Nat.le_refl _⟩
    · have := ih h
      exact ⟨this.1, Nat.le_of_succ_le this.2⟩

theorem tagRunnerEvents_index_lt :
    ∀ (i : Nat) (l : List StoredEvent),
      (tagRunnerEvents i l).Pairwise (fun a b => a.meta.index < b.meta.index) := by
  intro i l
  induction l generalizing i with
  | nil => exact List.Pairwise.nil
  | cons x t ih =>
    refine List.pairwise_cons.mpr ⟨?_, ih (i + 1)⟩
    intro b hb
    have := (mem_tagRunnerEvents hb).2
    show i < b.meta.index
    omega

theorem tagStreamMessages_index_lt :
    ∀ (i : Nat) (l : List CapturedMessage),
      (tagStreamMessages i l).Pairwise (fun a b => a.meta.index < b.meta.index) := by
  intro i l
  induction l generalizing i with
  | nil => exact List.Pairwise.nil
  | cons x t ih =>
    refine List.pairwise_cons.mpr ⟨?_, ih (i + 1)⟩
    intro b hb
    have := (mem_tagStreamMessages hb).2
    show i < b.meta.index
    omega

theorem pairwise_index_lt_inj {l : List MergedEvent}
    (h : l.Pairwise (fun a b => a.meta.index < b.meta.index)) :
    ∀ a ∈ l, ∀ b ∈ l, a.meta.index = b.meta.index → a = b := by
  induction l with
  | nil => simp
  | cons x t ih =>
    intro a ha b hb heq
    rcases List.mem_cons.mp ha with h1 | h1
    · rcases List.mem_cons.mp hb with h2 | h2
      · rw [h1, h2]
      · subst h1
        have := (List.pairwise_cons.mp h).1 b h2
        omega
    · rcases List.mem_cons.mp hb with h2 | h2
      · subst h2
        have := (List.pairwise_cons.mp h).1 a h1
        omega
      · exact ih (List.pairwise_cons.mp h).2 a h1 b h2 heq

/-- Within one merge set, the lexicographic key is antisymmetric: entries of
the same type carry distinct buffering indices, entries of different types
carry distinct weights. -/
theorem buildAllEvents_anti (events : List StoredEvent) (messages : List CapturedMessage) :
    ∀ a ∈ buildAllEvents events messages, ∀ b ∈ buildAllEvents events messages,
      mergeKeyLE a b → mergeKeyLE b a → a = b := by
  intro a ha b hb h1 h2
  have hw : eventWeight a = eventWeight b := by
    unfold mergeKeyLE at h1 h2
    omega
  have hidx : a.meta.index = b.meta.index := by
    unfold mergeKeyLE at h1 h2
    omega
  rcases List.mem_append.mp ha with ha1 | ha2 <;> rcases List.mem_append.mp hb with hb1 | hb2
  · exact pairwise_index_lt_inj (tagRunnerEvents_index_lt 0 events) a ha1 b hb1 hidx
  · have w1 := (mem_tagRunnerEvents ha1).1
    have w2 := (mem_tagStreamMessages hb2).1
    omega
  · have w1 := (mem_tagStreamMessages ha2).1
    have w2 := (mem_tagRunnerEvents hb1).1
    omega
  · exact pairwise_index_lt_inj (tagStreamMessages_index_lt 0 messages) a ha2 b hb2 hidx

theorem sortMergedEvents_perm (l : List MergedEvent) : (sortMergedEvents l).Perm l :=
  List.perm_insertionSort mergeLE l

theorem sortMergedEvents_sorted (l : List MergedEvent) :
    (sortMergedEvents l).Pairwise mergeKeyLE :=
  (List.sorted_insertionSort mergeLE l).imp (fun h => (mergeLE_iff _ _).mp h)

/-- Determinism of the merge order: any sorted permutation of the merge set
equals the one produced by the sort. -/
theorem sortMergedEvents_unique (events : List StoredEvent) (messages : List CapturedMessage)
    (l : List MergedEvent) (hp : l.Perm (buildAllEvents events messages))
    (hs : l.Pairwise mergeKeyLE) :
    l = sortMergedEvents (buildAllEvents events messages) := by
  apply sortedPermEq
  · exact hp.trans (sortMergedEvents_perm _).symm
  · exact hs
  · exact sortMergedEvents_sorted _
  · intro a ha b hb
    exact buildAllEvents_anti events messages a (hp.subset ha) b (hp.subset hb)

/-! ## State machine embedding of the module -/

/-- Association-list lookup (models `Map.prototype.get` / keyed access). -/
def alGet {α β : Type} [DecidableEq α] (k : α) : List (α × β) → Option β
  | [] => none
  | (a, b) :: t => if a = k then some b else alGet k t

/-- Association-list update/insert (models `Map.prototype.set`). -/
def alPut {α β : Type} [DecidableEq α] (k : α) (v : β) : List (α × β) → List (α × β)
  | [] => [(k, v)]
  | (a, b) :: t => if a = k then (k, v) :: t else (a, b) :: alPut k v t

/-- Association-list removal (models `Map.prototype.delete`). -/
def alRemove {α β : Type} [DecidableEq α] (k : α) : List (α × β) → List (α × β)
  | [] => []
  | (a, b) :: t => if a = k then alRemove k t else (a, b) :: alRemove k t

/-- The part of `options` that the reporter reads: `reporterName` and
`testsLength`. -/
structure ReporterOptions where
  reporterName : Option String
  testsLength : Nat
deriving DecidableEq, Repr

/-- The per-instance state of one `AbstractReporter` (one worker's runner):
`this._testFile` (set by `_detectFile` only when the root suite has child
suites), the buffer `this._eventsNotEmited`, and its options. -/
structure Collector where
  testFile : Option String
  eventsNotEmited : List StoredEvent
  testsLength : Nat
deriving DecidableEq, Repr

/-- Calls reaching the wrapped runner (the Aggregate Sink) or the real
standard streams, in chronological order. -/
inductive SinkCall
  | newReporter (path : String)
  | startCall (w : Nat)
  | emitEvent (w : Nat) (type : EventType) (data : Payload)
  | writeStream (w : Nat) (streamName : StreamName) (message : String)
  | endRun (fails : Int)
deriving DecidableEq, Repr

/-- Inputs driving the module: reporter construction for a worker, a runner
lifecycle event, an intercepted stream message (`stdStreamsEmitter`
`message`), a watcher `fail` notification (a failure that will be retried),
and a runner `end` event. Each `Date.now()` read is an explicit timestamp. -/
inductive Step
  | construct (w : Nat) (suiteFiles : List String) (opts : ReporterOptions)
  | runnerEvent (w : Nat) (type : EventType) (data : Payload) (timestamp : Nat)
  | stdMessage (file : String) (streamName : StreamName) (message : String) (timestamp : Nat)
  | watcherFail (file : String)
  | endEvent (w : Nat)
deriving DecidableEq, Repr

/-- The module's environment: which `require` paths load successfully and
what `path.resolve(process.cwd(), name)` yields. -/
structure Env where
  loads : String → Bool
  cwdResolve : String → String

/-- The module-level mutable state: `reporterInstance` (the resolved path of
the constructed user reporter), `testsFinished`, `failsOccured`,
`stdMessagesMap`, the number of `fail` listeners registered on
`stdStreamsEmitter`, the live collectors keyed by worker, the chronological
log of sink calls, and the errors thrown. -/
structure GState where
  reporterInstance : Option String
  testsFinished : Nat
  failsOccured : Int
  stdMessagesMap : List (String × List CapturedMessage)
  clearListeners : Nat
  collectors : List (Nat × Collector)
  sinkLog : List SinkCall
  thrown : List String
deriving DecidableEq, Repr

/-- `this._options.reporterName = this._options.reporterName || 'spec'`:
an absent or empty name falls back to `spec`. -/
def effectiveReporterName : Option String → String
  | none => "spec"
  | some s => if s = "" then "spec" else s

/-- The `reporterTryPaths` array of `_setReporterOnce`: built-in mocha
reporter, installed package, path resolved against the working directory. -/
def reporterTryPaths (env : Env) (name : String) : List String :=
  ["mocha/lib/reporters/" ++ name, name, env.cwdResolve name]

/-- The `require` loop of `_setReporterOnce`: the first candidate that
loads wins. -/
def resolveReporterPath (env : Env) (name : String) : Option String :=
  (reporterTryPaths env name).find? env.loads

/-- `_setReporterOnce`: skip when an instance exists; otherwise resolve and
construct, or throw `Invalid reporter "..."`. Returns the updated state and
whether the constructor may continue. -/
def setReporterOnce (env : Env) (s : GState) (opts : ReporterOptions) : GState × Bool :=
  match s.reporterInstance with
  | some _ => (s, true)
  | none =>
    let name := effectiveReporterName opts.reporterName
    match resolveReporterPath env name with
    | some p =>
      ({s with reporterInstance := some p, sinkLog := s.sinkLog ++ [.newReporter p]}, true)
    | none =>
      ({s with thrown := s.thrown ++ ["Invalid reporter \"" ++ name ++ "\""]}, false)

/-- `_detectFile` plus the creation of the collector itself: when the root
suite has child suites, record the first child's file and register the
retry-clear listener on `stdStreamsEmitter`. -/
def detectFile (s : GState) (w : Nat) (suiteFiles : List String) (opts : ReporterOptions) : GState :=
  match suiteFiles with
  | [] => {s with collectors := alPut w ⟨none, [], opts.testsLength⟩ s.collectors}
  | f :: _ =>
    {s with collectors := alPut w ⟨some f, [], opts.testsLength⟩ s.collectors,
            clearListeners := s.clearListeners + 1}

/-- `_storeEventData`: push the event with the current timestamp. -/
def storeEventData (c : Collector) (type : EventType) (data : Payload) (ts : Nat) : Collector :=
  {c with eventsNotEmited := c.eventsNotEmited ++ [⟨type, data, ts⟩]}

/-- Append an intercepted message to `stdMessagesMap` under its file. -/
def recordMessage (file : String) (m : CapturedMessage)
    (map : List (String × List CapturedMessage)) : List (String × List CapturedMessage) :=
  alPut file ((alGet file map).getD [] ++ [m]) map

/-- `stdMessagesMap.get(this._testFile) || []`: an undefined test-file key
finds nothing. -/
def lookupMessages (testFile : Option String)
    (map : List (String × List CapturedMessage)) : List CapturedMessage :=
  match testFile with
  | none => []
  | some f => (alGet f map).getD []

/-- Replay one merged entry: a runner event is re-emitted on the wrapped
runner, a stream message is written through the original stream method. -/
def replayCall (w : Nat) (e : MergedEvent) : SinkCall :=
  match e.payload with
  | .runnerEvent t d => .emitEvent w t d
  | .stdStreamMessage sn m => .writeStream w sn m

/-- One reaction of the module to an input. -/
def stepFn (env : Env) (s : GState) : Step → GState
  | .construct w suiteFiles opts =>
    let pr := setReporterOnce env s opts
    if pr.2 then
      let s2 := detectFile pr.1 w suiteFiles opts
      {s2 with sinkLog := s2.sinkLog ++ [.startCall w]}
    else pr.1
  | .runnerEvent w t d ts =>
    match alGet w s.collectors with
    | none => s
    | some c =>
      let s1 := {s with collectors := alPut w (storeEventData c t d ts) s.collectors}
      match t with
      | .fail => {s1 with failsOccured := s1.failsOccured + 1}
      | .failRetry =>
        {s1 with failsOccured := s1.failsOccured - 1,
                 sinkLog := s1.sinkLog ++ [.emitEvent w .failRetry d]}
      | _ => s1
  | .stdMessage f sn m ts => {s with stdMessagesMap := recordMessage f ⟨sn, m, ts⟩ s.stdMessagesMap}
  | .watcherFail f =>
    if 0 < s.clearListeners then {s with stdMessagesMap := alRemove f s.stdMessagesMap} else s
  | .endEvent w =>
    match alGet w s.collectors with
    | none => s
    | some c =>
      let allEvents := buildAllEvents c.eventsNotEmited (lookupMessages c.testFile s.stdMessagesMap)
      let replayed := (sortMergedEvents allEvents).map (replayCall w)
      let finished := s.testsFinished + 1
      let s1 := {s with sinkLog := s.sinkLog ++ replayed, testsFinished := finished}
      if finished = c.testsLength then
        {s1 with sinkLog := s1.sinkLog ++ [.endRun s1.failsOccured]}
      else s1

/-- The state at module load. -/
def initState : GState := ⟨none, 0, 0, [], 0, [], [], []⟩

/-- Run the module from an arbitrary state. -/
def runFrom (env : Env) (s : GState) (steps : List Step) : GState :=
  steps.foldl (stepFn env) s

/-- Run the module from module load. -/
def run (env : Env) (steps : List Step) : GState :=
  runFrom env initState steps

/-! ## Trace bookkeeping: counts and a mirror of the control state -/

/-- Boolean list membership for worker ids. -/
def memB (w : Nat) : List Nat → Bool
  | [] => false
  | x :: t => if x = w then true else memB w t

/-- Whether the reporter name of these options resolves in this environment. -/
def resolvesOpts (env : Env) (opts : ReporterOptions) : Bool :=
  (resolveReporterPath env (effectiveReporterName opts.reporterName)).isSome

/-- A small mirror of the control state of a trace: whether the user
reporter has been constructed, which workers have live collectors, and
whether the trace is well formed (every construction resolves its reporter
and every runner event or end event belongs to a constructed worker). -/
structure MirrorState where
  reporterSet : Bool
  workers : List Nat
  ok : Bool
deriving DecidableEq, Repr

def mirrorStep (env : Env) (m : MirrorState) : Step → MirrorState
  | .construct w _ opts =>
    if m.reporterSet then {m with workers := w :: m.workers}
    else if resolvesOpts env opts then ⟨true, w :: m.workers, m.ok⟩
    else {m with ok := false}
  | .runnerEvent w _ _ _ => {m with ok := m.ok && memB w m.workers}
  | .endEvent w => {m with ok := m.ok && memB w m.workers}
  | _ => m

def mirrorFrom (env : Env) (m : MirrorState) (steps : List Step) : MirrorState :=
  steps.foldl (mirrorStep env) m

def mirrorRun (env : Env) (steps : List Step) : MirrorState :=
  mirrorFrom env ⟨false, [], true⟩ steps

def isEndStep : Step → Bool
  | .endEvent _ => true
  | _ => false

def isFailStep : Step → Bool
  | .runnerEvent _ .fail _ _ => true
  | _ => false

def isRetryStep : Step → Bool
  | .runnerEvent _ .failRetry _ _ => true
  | _ => false

/-- Worker completions in a trace. -/
def countEnds (steps : List Step) : Nat := steps.countP isEndStep

/-- `fail` lifecycle events in a trace. -/
def countFails (steps : List Step) : Nat := steps.countP isFailStep

/-- `failRetry` lifecycle events in a trace. -/
def countRetries (steps : List Step) : Nat := steps.countP isRetryStep

def isEndRunCall : SinkCall → Bool
  | .endRun _ => true
  | _ => false

def isNewReporterCall : SinkCall → Bool
  | .newReporter _ => true
  | _ => false

/-- Finalisations (`runnerWrapped.end`) in a sink log. -/
def countEndRuns (log : List SinkCall) : Nat := log.countP isEndRunCall

/-- User-reporter constructions in a sink log. -/
def countNewReporters (log : List SinkCall) : Nat := log.countP isNewReporterCall

/-- Every construction of the trace carries `testsLength = n`. -/
def uniformLenB (n : Nat) (steps : List Step) : Bool :=
  steps.all fun st =>
    match st with
    | .construct _ _ opts => opts.testsLength == n
    | _ => true

/-- The coupling between the full state and its mirror. -/
def Coupled (s : GState) (m : MirrorState) : Prop :=
  s.reporterInstance.isSome = m.reporterSet
  ∧ ∀ w, (alGet w s.collectors).isSome = memB w m.workers

/-! ## Association-list lemmas -/

theorem alGet_put_self {α β : Type} [DecidableEq α] (k : α) (v : β) (l : List (α × β)) :
    alGet k (alPut k v l) = some v := by
  induction l with
  | nil => simp [alGet, alPut]
  | cons p t ih =>
    obtain ⟨a, b⟩ := p
    by_cases h : a = k
    · simp [alGet, alPut, h]
    · simp [alGet, alPut, h, ih]

theorem alGet_put_ne {α β : Type} [DecidableEq α] {k j : α} (h : j ≠ k) (v : β)
    (l : List (α × β)) : alGet k (alPut j v l) = alGet k l := by
  induction l with
  | nil => simp [alGet, alPut, h]
  | cons p t ih =>
    obtain ⟨a, b⟩ := p
    by_cases ha : a = j
    · subst ha
      simp [alGet, alPut, h, ih]
    · by_cases hk : a = k
      · simp [alGet, alPut, ha, hk, Ne.symm h]
      · simp [alGet, alPut, ha, hk, ih]

theorem alGet_remove_self {α β : Type} [DecidableEq α] (k : α) (l : List (α × β)) :
    alGet k (alRemove k l) = none := by
  induction l with
  | nil => simp [alGet, alRemove]
  | cons p t ih =>
    obtain ⟨a, b⟩ := p
    by_cases h : a = k
    · simp [alRemove, h, ih]
    · simp [alGet, alRemove, h, ih]

theorem alGet_remove_ne {α β : Type} [DecidableEq α] {k j : α} (h : j ≠ k)
    (l : List (α × β)) : alGet k (alRemove j l) = alGet k l := by
  induction l with
  | nil => simp [alRemove]
  | cons p t ih =>
    obtain ⟨a, b⟩ := p
    by_cases ha : a = j
    · subst ha
      simp [alGet, alRemove, h, Ne.symm h, ih]
    · by_cases hk : a = k
      · simp [alGet, alRemove, ha, hk, Ne.symm h]
      · simp [alGet, alRemove, ha, hk, ih]

theorem alGet_put_isSome {α β : Type} [DecidableEq α] (k j : α) (v : β) (l : List (α × β)) :
    (alGet k (alPut j v l)).isSome = (if k = j then true else (alGet k l).isSome) := by
  by_cases h : k = j
  · subst h
    simp [alGet_put_self]
  · simp [alGet_put_ne (fun hj => h hj.symm), h]

/-! ## Fold lemmas -/

theorem runFrom_nil (env : Env) (s : GState) : runFrom env s [] = s := rfl

theorem runFrom_cons (env : Env) (s : GState) (x : Step) (t : List Step) :
    runFrom env s (x :: t) = runFrom env (stepFn env s x) t := rfl

theorem runFrom_append (env : Env) (s : GState) (p q : List Step) :
    runFrom env s (p ++ q) = runFrom env (runFrom env s p) q :=
  List.foldl_append _ _ _ _

theorem run_append (env : Env) (p q : List Step) :
    run env (p ++ q) = runFrom env (run env p) q :=
  runFrom_append env initState p q

theorem mirrorFrom_nil (env : Env) (m : MirrorState) : mirrorFrom env m [] = m := rfl

theorem mirrorFrom_cons (env : Env) (m : MirrorState) (x : Step) (t : List Step) :
    mirrorFrom env m (x :: t) = mirrorFrom env (mirrorStep env m x) t := rfl

theorem mirrorFrom_append (env : Env) (m : MirrorState) (p q : List Step) :
    mirrorFrom env m (p ++ q) = mirrorFrom env (mirrorFrom env m p) q :=
  List.foldl_append _ _ _ _

theorem mirrorStep_ok_false (env : Env) (m : MirrorState) (x : Step) (h : m.ok = false) :
    (mirrorStep env m x).ok = false := by
  cases x with
  | construct w fs opts =>
    by_cases h1 : m.reporterSet
    · simp [mirrorStep, h1, h]
    · by_cases h2 : resolvesOpts env opts
      · simp [mirrorStep, h1, h2, h]
      · simp [mirrorStep, h1, h2]
  | runnerEvent w t d ts => simp [mirrorStep, h]
  | stdMessage f sn msg ts => simp [mirrorStep, h]
  | watcherFail f => simp [mirrorStep, h]
  | endEvent w => simp [mirrorStep, h]

theorem mirrorFrom_ok_false (env : Env) (steps : List Step) :
    ∀ m : MirrorState, m.ok = false → (mirrorFrom env m steps).ok = false := by
  induction steps with
  | nil => intro m h; exact h
  | cons x t ih =>
    intro m h
    rw [mirrorFrom_cons]
    exact ih _ (mirrorStep_ok_false env m x h)

theorem mirrorStep_ok_of_ok (env : Env) (m : MirrorState) (x : Step) (t : List Step)
    (h : (mirrorFrom env (mirrorStep env m x) t).ok = true) : (mirrorStep env m x).ok = true := by
  by_cases hb : (mirrorStep env m x).ok = true
  · exact hb
  · have : (mirrorStep env m x).ok = false := by
      cases hx : (mirrorStep env m x).ok
      · rfl
      · exact absurd hx hb
    rw [mirrorFrom_ok_false env t _ this] at h
    cases h

theorem mirrorFrom_ok_of_append (env : Env) (m : MirrorState) (p q : List Step)
    (h : (mirrorFrom env m (p ++ q)).ok = true) : (mirrorFrom env m p).ok = true := by
  rw [mirrorFrom_append] at h
  by_cases hb : (mirrorFrom env m p).ok = true
  · exact hb
  · have hf : (mirrorFrom env m p).ok = false := by
      cases hx : (mirrorFrom env m p).ok
      · rfl
      · exact absurd hx hb
    rw [mirrorFrom_ok_false env q _ hf] at h
    cases h

/-! ## Coupling between state and mirror -/

theorem memB_cons (w x : Nat) (l : List Nat) :
    memB w (x :: l) = (if x = w then true else memB w l) := rfl

theorem coupled_collectors_put {s : GState} (ws : List Nat) (w : Nat) (v : Collector)
    (h2 : ∀ k, (alGet k s.collectors).isSome = memB k ws) :
    ∀ k, (alGet k (alPut w v s.collectors)).isSome = memB k (w :: ws) := by
  intro k
  rw [alGet_put_isSome, memB_cons]
  by_cases hk : k = w
  · simp [hk]
  · simp [hk, Ne.symm hk, h2 k]

theorem coupled_collectors_update {s : GState} {ws : List Nat} {w : Nat} {c : Collector}
    (h2 : ∀ k, (alGet k s.collectors).isSome = memB k ws)
    (hc : alGet w s.collectors = some c) (v : Collector) :
    ∀ k, (alGet k (alPut w v s.collectors)).isSome = memB k ws := by
  intro k
  rw [alGet_put_isSome]
  by_cases hk : k = w
  · subst hk
    rw [if_pos rfl]
    have hh := h2 k
    rw [hc] at hh
    exact hh
  · rw [if_neg hk]
    exact h2 k

theorem memB_of_alGet {s : GState} {ws : List Nat} {w : Nat} {c : Collector}
    (h2 : ∀ k, (alGet k s.collectors).isSome = memB k ws)
    (hc : alGet w s.collectors = some c) : memB w ws = true := by
  have hh := h2 w
  rw [hc] at hh
  exact hh.symm

theorem alGet_isSome_of_memB {s : GState} {ws : List Nat} {w : Nat}
    (h2 : ∀ k, (alGet k s.collectors).isSome = memB k ws)
    (hm : memB w ws = true) : ∃ c, alGet w s.collectors = some c := by
  have hh := h2 w
  rw [hm] at hh
  exact Option.isSome_iff_exists.mp hh

theorem coupled_step (env : Env) {s : GState} {m : MirrorState} (h : Coupled s m) (x : Step) :
    Coupled (stepFn env s x) (mirrorStep env m x) := by
  obtain ⟨h1, h2⟩ := h
  cases x with
  | construct w fs opts =>
    cases hp : s.reporterInstance with
    | some p =>
      have hr : m.reporterSet = true := by
        rw [← h1, hp]
        rfl
      have hstep : stepFn env s (.construct w fs opts)
          = (let s2 := detectFile s w fs opts
             {s2 with sinkLog := s2.sinkLog ++ [SinkCall.startCall w]}) := by
        simp [stepFn, setReporterOnce, hp]
      have hm : mirrorStep env m (.construct w fs opts) = {m with workers := w :: m.workers} := by
        simp [mirrorStep, hr]
      rw [hstep, hm]
      cases fs with
      | nil => exact ⟨by simp [detectFile, hp, hr], coupled_collectors_put m.workers w _ h2⟩
      | cons f ft => exact ⟨by simp [detectFile, hp, hr], coupled_collectors_put m.workers w _ h2⟩
    | none =>
      have hr : m.reporterSet = false := by
        rw [← h1, hp]
        rfl
      cases hres : resolveReporterPath env (effectiveReporterName opts.reporterName) with
      | some q =>
        have hro : resolvesOpts env opts = true := by simp [resolvesOpts, hres]
        have hstep : stepFn env s (.construct w fs opts)
            = (let s1 : GState :=
                {s with reporterInstance := some q,
                        sinkLog := s.sinkLog ++ [SinkCall.newReporter q]}
               let s2 := detectFile s1 w fs opts
               {s2 with sinkLog := s2.sinkLog ++ [SinkCall.startCall w]}) := by
          simp [stepFn, setReporterOnce, hp, hres]
        have hm : mirrorStep env m (.construct w fs opts) = ⟨true, w :: m.workers, m.ok⟩ := by
          simp [mirrorStep, hr, hro]
        rw [hstep, hm]
        cases fs with
        | nil => exact ⟨by simp [detectFile], coupled_collectors_put m.workers w _ h2⟩
        | cons f ft => exact ⟨by simp [detectFile], coupled_collectors_put m.workers w _ h2⟩
      | none =>
        have hro : resolvesOpts env opts = false := by simp [resolvesOpts, hres]
        have hstep : stepFn env s (.construct w fs opts)
            = {s with thrown := s.thrown
                ++ ["Invalid reporter \"" ++ effectiveReporterName opts.reporterName ++ "\""]} := by
          simp [stepFn, setReporterOnce, hp, hres]
        have hm : mirrorStep env m (.construct w fs opts) = {m with ok := false} := by
          simp [mirrorStep, hr, hro]
        rw [hstep, hm]
        exact ⟨by simp [hp, hr], h2⟩
  | runnerEvent w t d ts =>
    have hm : mirrorStep env m (.runnerEvent w t d ts)
        = {m with ok := m.ok && memB w m.workers} := rfl
    rw [hm]
    cases hc : alGet w s.collectors with
    | none =>
      have hstep : stepFn env s (.runnerEvent w t d ts) = s := by simp [stepFn, hc]
      rw [hstep]
      exact ⟨h1, h2⟩
    | some c =>
      cases t <;> simp only [stepFn, hc] <;>
        exact ⟨h1, coupled_collectors_update h2 hc _⟩
  | stdMessage f sn msg ts =>
    exact ⟨h1, h2⟩
  | watcherFail f =>
    have hm : mirrorStep env m (.watcherFail f) = m := rfl
    rw [hm]
    by_cases hl : 0 < s.clearListeners
    · have hstep : stepFn env s (.watcherFail f)
          = {s with stdMessagesMap := alRemove f s.stdMessagesMap} := by simp [stepFn, hl]
      rw [hstep]
      exact ⟨h1, h2⟩
    · have hstep : stepFn env s (.watcherFail f) = s := by simp [stepFn, hl]
      rw [hstep]
      exact ⟨h1, h2⟩
  | endEvent w =>
    have hm : mirrorStep env m (.endEvent w) = {m with ok := m.ok && memB w m.workers} := rfl
    rw [hm]
    cases hc : alGet w s.collectors with
    | none =>
      have hstep : stepFn env s (.endEvent w) = s := by simp [stepFn, hc]
      rw [hstep]
      exact ⟨h1, h2⟩
    | some c =>
      refine ⟨?_, ?_⟩ <;> simp only [stepFn, hc] <;> split
      · exact h1
      · exact h1
      · exact h2
      · exact h2

theorem coupled_from (env : Env) (steps : List Step) :
    ∀ {s : GState} {m : MirrorState}, Coupled s m →
      Coupled (runFrom env s steps) (mirrorFrom env m steps) := by
  induction steps with
  | nil => intro s m h; exact h
  | cons x t ih =>
    intro s m h
    rw [runFrom_cons, mirrorFrom_cons]
    exact ih (coupled_step env h x)

theorem coupled_init : Coupled initState ⟨false, [], true⟩ := by
  refine ⟨rfl, ?_⟩
  intro w
  rfl

theorem coupled_run (env : Env) (steps : List Step) :
    Coupled (run env steps) (mirrorRun env steps) :=
  coupled_from env steps coupled_init

/-! ## Per-step projections -/

theorem stepFn_construct_counters (env : Env) (s : GState) (w : Nat) (fs : List String)
    (opts : ReporterOptions) :
    (stepFn env s (.construct w fs opts)).testsFinished = s.testsFinished
    ∧ (stepFn env s (.construct w fs opts)).failsOccured = s.failsOccured
    ∧ (stepFn env s (.construct w fs opts)).stdMessagesMap = s.stdMessagesMap := by
  cases hp : s.reporterInstance with
  | some p => cases fs <;> simp [stepFn, setReporterOnce, hp, detectFile]
  | none =>
    cases hres : resolveReporterPath env (effectiveReporterName opts.reporterName) with
    | some q => cases fs <;> simp [stepFn, setReporterOnce, hp, hres, detectFile]
    | none => simp [stepFn, setReporterOnce, hp, hres]

theorem stepFn_end_counters (env : Env) (s : GState) (w : Nat) (c : Collector)
    (hc : alGet w s.collectors = some c) :
    (stepFn env s (.endEvent w)).testsFinished = s.testsFinished + 1
    ∧ (stepFn env s (.endEvent w)).failsOccured = s.failsOccured
    ∧ (stepFn env s (.endEvent w)).stdMessagesMap = s.stdMessagesMap := by
  simp only [stepFn, hc]
  split <;> simp

theorem countEndRuns_replay (w : Nat) (l : List MergedEvent) :
    countEndRuns (l.map (replayCall w)) = 0 := by
  induction l with
  | nil => rfl
  | cons e t ih =>
    obtain ⟨p, meta⟩ := e
    cases p <;> simpa [countEndRuns, List.countP_cons, replayCall, isEndRunCall] using ih

theorem countNewReporters_replay (w : Nat) (l : List MergedEvent) :
    countNewReporters (l.map (replayCall w)) = 0 := by
  induction l with
  | nil => rfl
  | cons e t ih =>
    obtain ⟨p, meta⟩ := e
    cases p <;> simpa [countNewReporters, List.countP_cons, replayCall, isNewReporterCall] using ih

theorem stepFn_end_sinkLog (env : Env) (s : GState) (w : Nat) (c : Collector)
    (hc : alGet w s.collectors = some c) :
    (stepFn env s (.endEvent w)).sinkLog
      = s.sinkLog
        ++ (sortMergedEvents (buildAllEvents c.eventsNotEmited
              (lookupMessages c.testFile s.stdMessagesMap))).map (replayCall w)
        ++ (if s.testsFinished + 1 = c.testsLength
            then [SinkCall.endRun s.failsOccured] else []) := by
  simp only [stepFn, hc]
  split_ifs <;> simp

/-! ## Counter invariants -/

theorem counters_from (env : Env) (steps : List Step) :
    ∀ (s : GState) (m : MirrorState), Coupled s m → (mirrorFrom env m steps).ok = true →
      (runFrom env s steps).testsFinished = s.testsFinished + countEnds steps
      ∧ (runFrom env s steps).failsOccured
          = s.failsOccured + (countFails steps : Int) - (countRetries steps : Int) := by
  induction steps with
  | nil =>
    intro s m h hok
    constructor
    · simp [runFrom_nil, countEnds, List.countP_nil]
    · simp [runFrom_nil, countFails, countRetries, List.countP_nil]
  | cons x t ih =>
    intro s m h hok
    rw [mirrorFrom_cons] at hok
    have hxok := mirrorStep_ok_of_ok env m x t hok
    have hcpl := coupled_step env h x
    have iht := ih (stepFn env s x) (mirrorStep env m x) hcpl hok
    rw [runFrom_cons]
    cases x with
    | construct w fs opts =>
      have hp := stepFn_construct_counters env s w fs opts
      constructor
      · rw [iht.1, hp.1]
        simp [countEnds, List.countP_cons, isEndStep]
      · rw [iht.2, hp.2.1]
        simp [countFails, countRetries, List.countP_cons, isFailStep, isRetryStep]
    | runnerEvent w ty d ts =>
      have hx2 : (m.ok && memB w m.workers) = true := hxok
      have hand : m.ok = true ∧ memB w m.workers = true := by simpa using hx2
      obtain ⟨c, hc⟩ := alGet_isSome_of_memB h.2 hand.2
      constructor
      · rw [iht.1]
        cases ty <;> simp [stepFn, hc, countEnds, List.countP_cons, isEndStep]
      · rw [iht.2]
        cases ty <;>
          simp [stepFn, hc, countFails, countRetries, List.countP_cons, isFailStep,
            isRetryStep] <;>
          omega
    | stdMessage f sn msg ts =>
      constructor
      · rw [iht.1]
        simp [stepFn, countEnds, List.countP_cons, isEndStep]
      · rw [iht.2]
        simp [stepFn, countFails, countRetries, List.countP_cons, isFailStep, isRetryStep]
    | watcherFail f =>
      have hstep : (stepFn env s (.watcherFail f)).testsFinished = s.testsFinished
          ∧ (stepFn env s (.watcherFail f)).failsOccured = s.failsOccured := by
        by_cases hl : 0 < s.clearListeners <;> simp [stepFn, hl]
      constructor
      · rw [iht.1, hstep.1]
        simp [countEnds, List.countP_cons, isEndStep]
      · rw [iht.2, hstep.2]
        simp [countFails, countRetries, List.countP_cons, isFailStep, isRetryStep]
    | endEvent w =>
      have hx2 : (m.ok && memB w m.workers) = true := hxok
      have hand : m.ok = true ∧ memB w m.workers = true := by simpa using hx2
      obtain ⟨c, hc⟩ := alGet_isSome_of_memB h.2 hand.2
      have hp := stepFn_end_counters env s w c hc
      constructor
      · rw [iht.1, hp.1]
        simp [countEnds, List.countP_cons, isEndStep]
        omega
      · rw [iht.2, hp.2.1]
        simp [countFails, countRetries, List.countP_cons, isFailStep, isRetryStep]

theorem alGet_put_cases {α β : Type} [DecidableEq α] {k j : α} {v c : β} {l : List (α × β)}
    (h : alGet k (alPut j v l) = some c) : (k = j ∧ c = v) ∨ alGet k l = some c := by
  by_cases hk : k = j
  · subst hk
    rw [alGet_put_self] at h
    exact Or.inl ⟨rfl, (Option.some_inj.mp h).symm⟩
  · rw [alGet_put_ne (fun he => hk he.symm)] at h
    exact Or.inr h

theorem stepFn_construct_collectors (env : Env) (s : GState) (w : Nat) (fs : List String)
    (opts : ReporterOptions) :
    (stepFn env s (.construct w fs opts)).collectors = s.collectors
    ∨ ∃ tf, (stepFn env s (.construct w fs opts)).collectors
        = alPut w ⟨tf, [], opts.testsLength⟩ s.collectors := by
  cases hp : s.reporterInstance with
  | some p =>
    cases fs with
    | nil => exact Or.inr ⟨none, by simp [stepFn, setReporterOnce, hp, detectFile]⟩
    | cons f ft => exact Or.inr ⟨some f, by simp [stepFn, setReporterOnce, hp, detectFile]⟩
  | none =>
    cases hres : resolveReporterPath env (effectiveReporterName opts.reporterName) with
    | some q =>
      cases fs with
      | nil => exact Or.inr ⟨none, by simp [stepFn, setReporterOnce, hp, hres, detectFile]⟩
      | cons f ft => exact Or.inr ⟨some f, by simp [stepFn, setReporterOnce, hp, hres, detectFile]⟩
    | none => exact Or.inl (by simp [stepFn, setReporterOnce, hp, hres])

theorem stepFn_event_collectors (env : Env) (s : GState) (w : Nat) (ty : EventType)
    (d : Payload) (ts : Nat) (c : Collector) (hc : alGet w s.collectors = some c) :
    (stepFn env s (.runnerEvent w ty d ts)).collectors
      = alPut w (storeEventData c ty d ts) s.collectors := by
  cases ty <;> simp [stepFn, hc]

theorem stepFn_end_collectors (env : Env) (s : GState) (w : Nat) :
    (stepFn env s (.endEvent w)).collectors = s.collectors := by
  cases hc : alGet w s.collectors with
  | none => simp [stepFn, hc]
  | some c =>
    simp only [stepFn, hc]
    split <;> rfl

theorem stepFn_nonend_testsFinished (env : Env) (s : GState) (x : Step)
    (hx : isEndStep x = false) : (stepFn env s x).testsFinished = s.testsFinished := by
  cases x with
  | construct w fs opts => exact (stepFn_construct_counters env s w fs opts).1
  | runnerEvent w ty d ts =>
    cases hc : alGet w s.collectors with
    | none => simp [stepFn, hc]
    | some c => cases ty <;> simp [stepFn, hc]
  | stdMessage f sn msg ts => rfl
  | watcherFail f => by_cases hl : 0 < s.clearListeners <;> simp [stepFn, hl]
  | endEvent w => simp [isEndStep] at hx

theorem countEndRuns_append (a b : List SinkCall) :
    countEndRuns (a ++ b) = countEndRuns a + countEndRuns b :=
  List.countP_append _ _ _

theorem countNewReporters_append (a b : List SinkCall) :
    countNewReporters (a ++ b) = countNewReporters a + countNewReporters b :=
  List.countP_append _ _ _

theorem countEndRuns_step (env : Env) (s : GState) (x : Step) (hx : isEndStep x = false) :
    countEndRuns (stepFn env s x).sinkLog = countEndRuns s.sinkLog := by
  cases x with
  | construct w fs opts =>
    cases hp : s.reporterInstance with
    | some p =>
      cases fs <;>
        simp [stepFn, setReporterOnce, hp, detectFile, countEndRuns, List.countP_append,
          List.countP_cons, isEndRunCall]
    | none =>
      cases hres : resolveReporterPath env (effectiveReporterName opts.reporterName) with
      | some q =>
        cases fs <;>
          simp [stepFn, setReporterOnce, hp, hres, detectFile, countEndRuns,
            List.countP_append, List.countP_cons, isEndRunCall]
      | none => simp [stepFn, setReporterOnce, hp, hres]
  | runnerEvent w ty d ts =>
    cases hc : alGet w s.collectors with
    | none => simp [stepFn, hc]
    | some c =>
      cases ty <;>
        simp [stepFn, hc, countEndRuns, List.countP_append, List.countP_cons, isEndRunCall]
  | stdMessage f sn msg ts => rfl
  | watcherFail f => by_cases hl : 0 < s.clearListeners <;> simp [stepFn, hl]
  | endEvent w => simp [isEndStep] at hx

/-- The construction constraint of `uniformLenB` on a single step. -/
def constructLenOk (n : Nat) : Step → Prop
  | .construct _ _ opts => opts.testsLength = n
  | _ => True

theorem uniformLenB_cons {n : Nat} {x : Step} {t : List Step}
    (h : uniformLenB n (x :: t) = true) : constructLenOk n x ∧ uniformLenB n t = true := by
  rw [uniformLenB, List.all_cons] at h
  simp only [Bool.and_eq_true] at h
  refine ⟨?_, h.2⟩
  cases x with
  | construct w fs opts => simpa [constructLenOk] using h.1
  | runnerEvent w ty d ts => trivial
  | stdMessage f sn msg ts => trivial
  | watcherFail f => trivial
  | endEvent w => trivial

theorem collectorLen_step (env : Env) {n : Nat} (s : GState) (x : Step)
    (hx : constructLenOk n x)
    (hs : ∀ w c, alGet w s.collectors = some c → c.testsLength = n) :
    ∀ w c, alGet w (stepFn env s x).collectors = some c → c.testsLength = n := by
  cases x with
  | construct w2 fs opts =>
    intro w c hc
    rcases stepFn_construct_collectors env s w2 fs opts with hcol | ⟨tf, hcol⟩
    · rw [hcol] at hc
      exact hs w c hc
    · rw [hcol] at hc
      rcases alGet_put_cases hc with ⟨_, rfl⟩ | hold
      · exact hx
      · exact hs w c hold
  | runnerEvent w2 ty d ts =>
    intro w c hc
    cases hc2 : alGet w2 s.collectors with
    | none =>
      have hcol : (stepFn env s (.runnerEvent w2 ty d ts)).collectors = s.collectors := by
        cases ty <;> simp [stepFn, hc2]
      rw [hcol] at hc
      exact hs w c hc
    | some c2 =>
      rw [stepFn_event_collectors env s w2 ty d ts c2 hc2] at hc
      rcases alGet_put_cases hc with ⟨_, rfl⟩ | hold
      · exact hs w2 c2 hc2
      · exact hs w c hold
  | stdMessage f sn msg ts =>
    intro w c hc
    exact hs w c hc
  | watcherFail f =>
    intro w c hc
    have hcol : (stepFn env s (.watcherFail f)).collectors = s.collectors := by
      by_cases hl : 0 < s.clearListeners <;> simp [stepFn, hl]
    rw [hcol] at hc
    exact hs w c hc
  | endEvent w2 =>
    intro w c hc
    rw [stepFn_end_collectors env s w2] at hc
    exact hs w c hc

theorem collectorLen_from (env : Env) (n : Nat) (steps : List Step) :
    ∀ s : GState, uniformLenB n steps = true →
      (∀ w c, alGet w s.collectors = some c → c.testsLength = n) →
      ∀ w c, alGet w (runFrom env s steps).collectors = some c → c.testsLength = n := by
  induction steps with
  | nil => intro s _ hs w c hc; exact hs w c hc
  | cons x t ih =>
    intro s huni hs w c hc
    obtain ⟨hx, ht⟩ := uniformLenB_cons huni
    rw [runFrom_cons] at hc
    exact ih (stepFn env s x) ht (collectorLen_step env s x hx hs) w c hc

theorem endRuns_from (env : Env) (n : Nat) (steps : List Step) :
    ∀ (s : GState) (m : MirrorState), Coupled s m →
      (mirrorFrom env m steps).ok = true →
      uniformLenB n steps = true →
      (∀ w c, alGet w s.collectors = some c → c.testsLength = n) →
      countEndRuns (runFrom env s steps).sinkLog
        = countEndRuns s.sinkLog
          + (if s.testsFinished < n ∧ n ≤ s.testsFinished + countEnds steps then 1 else 0) := by
  induction steps with
  | nil =>
    intro s m h hok huni hlen
    rw [runFrom_nil]
    have hneg : ¬ (s.testsFinished < n ∧ n ≤ s.testsFinished + countEnds ([] : List Step)) := by
      simp only [countEnds, List.countP_nil]
      omega
    rw [if_neg hneg]
    omega
  | cons x t ih =>
    intro s m h hok huni hlen
    rw [mirrorFrom_cons] at hok
    have hxok := mirrorStep_ok_of_ok env m x t hok
    have hcpl := coupled_step env h x
    have hall := uniformLenB_cons huni
    have hlent := collectorLen_step env s x hall.1 hlen
    have iht := ih (stepFn env s x) (mirrorStep env m x) hcpl hok hall.2 hlent
    by_cases hx : isEndStep x = true
    · cases x with
      | construct w fs opts => simp [isEndStep] at hx
      | runnerEvent w ty d ts => simp [isEndStep] at hx
      | stdMessage f sn msg ts => simp [isEndStep] at hx
      | watcherFail f => simp [isEndStep] at hx
      | endEvent w =>
        have hx2 : (m.ok && memB w m.workers) = true := hxok
        have hand : m.ok = true ∧ memB w m.workers = true := by simpa using hx2
        obtain ⟨c, hc⟩ := alGet_isSome_of_memB h.2 hand.2
        have hcn : c.testsLength = n := hlen w c hc
        have hlog := stepFn_end_sinkLog env s w c hc
        have htf := (stepFn_end_counters env s w c hc).1
        rw [runFrom_cons, iht, hlog, htf]
        rw [countEndRuns_append, countEndRuns_append, countEndRuns_replay]
        rw [hcn]
        have hce : countEnds (Step.endEvent w :: t) = countEnds t + 1 := by
          simp [countEnds, List.countP_cons, isEndStep]
        rw [hce]
        by_cases hfin : s.testsFinished + 1 = n
        · rw [if_pos hfin]
          have h1 : countEndRuns [SinkCall.endRun s.failsOccured] = 1 := rfl
          rw [h1]
          split_ifs <;> omega
        · rw [if_neg hfin]
          have h0 : countEndRuns ([] : List SinkCall) = 0 := rfl
          rw [h0]
          split_ifs <;> omega
    · have hxf : isEndStep x = false := by
        cases hxx : isEndStep x
        · rfl
        · exact absurd hxx hx
      have hce : countEnds (x :: t) = countEnds t := by
        simp [countEnds, List.countP_cons, hxf]
      rw [runFrom_cons, iht, countEndRuns_step env s x hxf, stepFn_nonend_testsFinished env s x hxf,
        hce]

/-! ## No early emission -/

theorem replay_emit_worker {w w2 : Nat} {e : MergedEvent} {ty : EventType} {d : Payload}
    (h : replayCall w2 e = SinkCall.emitEvent w ty d) : w2 = w := by
  obtain ⟨p, meta⟩ := e
  cases p with
  | runnerEvent t2 d2 =>
    simp [replayCall] at h
    exact h.1
  | stdStreamMessage sn m => simp [replayCall] at h

theorem replay_write_worker {w w2 : Nat} {e : MergedEvent} {sn : StreamName} {msg : String}
    (h : replayCall w2 e = SinkCall.writeStream w sn msg) : w2 = w := by
  obtain ⟨p, meta⟩ := e
  cases p with
  | runnerEvent t2 d2 => simp [replayCall] at h
  | stdStreamMessage sn2 m2 =>
    simp [replayCall] at h
    exact h.1

theorem stepFn_construct_sinkLog (env : Env) (s : GState) (w : Nat) (fs : List String)
    (opts : ReporterOptions) :
    ∃ l : List SinkCall, (stepFn env s (.construct w fs opts)).sinkLog = s.sinkLog ++ l
      ∧ ∀ c ∈ l, (∃ q, c = SinkCall.newReporter q) ∨ c = SinkCall.startCall w := by
  cases hp : s.reporterInstance with
  | some p =>
    refine ⟨[SinkCall.startCall w], ?_, ?_⟩
    · cases fs <;> simp [stepFn, setReporterOnce, hp, detectFile]
    · intro c hc
      simp at hc
      subst hc
      exact Or.inr rfl
  | none =>
    cases hres : resolveReporterPath env (effectiveReporterName opts.reporterName) with
    | some q =>
      refine ⟨[SinkCall.newReporter q, SinkCall.startCall w], ?_, ?_⟩
      · cases fs <;> simp [stepFn, setReporterOnce, hp, hres, detectFile]
      · intro c hc
        rcases List.mem_cons.mp hc with rfl | hc2
        · exact Or.inl ⟨q, rfl⟩
        · simp at hc2
          subst hc2
          exact Or.inr rfl
    | none =>
      refine ⟨[], ?_, ?_⟩
      · simp [stepFn, setReporterOnce, hp, hres]
      · intro c hc
        cases hc

theorem noEarly_step (env : Env) (s : GState) (w : Nat) (x : Step) (hx : x ≠ Step.endEvent w) :
    (∀ ty d, SinkCall.emitEvent w ty d ∈ (stepFn env s x).sinkLog →
      SinkCall.emitEvent w ty d ∈ s.sinkLog ∨ ty = EventType.failRetry)
    ∧ (∀ sn msg, SinkCall.writeStream w sn msg ∈ (stepFn env s x).sinkLog →
        SinkCall.writeStream w sn msg ∈ s.sinkLog) := by
  cases x with
  | construct w2 fs opts =>
    obtain ⟨l, hl, hprop⟩ := stepFn_construct_sinkLog env s w2 fs opts
    rw [hl]
    constructor
    · intro ty d hm
      rcases List.mem_append.mp hm with hin | hin
      · exact Or.inl hin
      · rcases hprop _ hin with ⟨q, hq⟩ | hq <;> cases hq
    · intro sn msg hm
      rcases List.mem_append.mp hm with hin | hin
      · exact hin
      · rcases hprop _ hin with ⟨q, hq⟩ | hq <;> cases hq
  | runnerEvent w2 ty2 d2 ts =>
    cases hc : alGet w2 s.collectors with
    | none =>
      have hs : (stepFn env s (.runnerEvent w2 ty2 d2 ts)).sinkLog = s.sinkLog := by
        simp [stepFn, hc]
      rw [hs]
      exact ⟨fun ty d hm => Or.inl hm, fun sn msg hm => hm⟩
    | some c =>
      cases ty2 with
      | failRetry =>
        have hs : (stepFn env s (.runnerEvent w2 .failRetry d2 ts)).sinkLog
            = s.sinkLog ++ [SinkCall.emitEvent w2 .failRetry d2] := by
          simp [stepFn, hc]
        rw [hs]
        constructor
        · intro ty d hm
          rcases List.mem_append.mp hm with hin | hin
          · exact Or.inl hin
          · simp at hin
            exact Or.inr hin.2.1
        · intro sn msg hm
          rcases List.mem_append.mp hm with hin | hin
          · exact hin
          · simp at hin
      | fail =>
        have hs : (stepFn env s (.runnerEvent w2 .fail d2 ts)).sinkLog = s.sinkLog := by
          simp [stepFn, hc]
        rw [hs]
        exact ⟨fun ty d hm => Or.inl hm, fun sn msg hm => hm⟩
      | suite =>
        have hs : (stepFn env s (.runnerEvent w2 .suite d2 ts)).sinkLog = s.sinkLog := by
          simp [stepFn, hc]
        rw [hs]
        exact ⟨fun ty d hm => Or.inl hm, fun sn msg hm => hm⟩
      | suiteEnd =>
        have hs : (stepFn env s (.runnerEvent w2 .suiteEnd d2 ts)).sinkLog = s.sinkLog := by
          simp [stepFn, hc]
        rw [hs]
        exact ⟨fun ty d hm => Or.inl hm, fun sn msg hm => hm⟩
      | test =>
        have hs : (stepFn env s (.runnerEvent w2 .test d2 ts)).sinkLog = s.sinkLog := by
          simp [stepFn, hc]
        rw [hs]
        exact ⟨fun ty d hm => Or.inl hm, fun sn msg hm => hm⟩
      | pending =>
        have hs : (stepFn env s (.runnerEvent w2 .pending d2 ts)).sinkLog = s.sinkLog := by
          simp [stepFn, hc]
        rw [hs]
        exact ⟨fun ty d hm => Or.inl hm, fun sn msg hm => hm⟩
      | pass =>
        have hs : (stepFn env s (.runnerEvent w2 .pass d2 ts)).sinkLog = s.sinkLog := by
          simp [stepFn, hc]
        rw [hs]
        exact ⟨fun ty d hm => Or.inl hm, fun sn msg hm => hm⟩
      | testEnd =>
        have hs : (stepFn env s (.runnerEvent w2 .testEnd d2 ts)).sinkLog = s.sinkLog := by
          simp [stepFn, hc]
        rw [hs]
        exact ⟨fun ty d hm => Or.inl hm, fun sn msg hm => hm⟩
  | stdMessage f sn2 msg2 ts =>
    exact ⟨fun ty d hm => Or.inl hm, fun sn msg hm => hm⟩
  | watcherFail f =>
    by_cases hl : 0 < s.clearListeners
    · have hs : (stepFn env s (.watcherFail f)).sinkLog = s.sinkLog := by simp [stepFn, hl]
      rw [hs]
      exact ⟨fun ty d hm => Or.inl hm, fun sn msg hm => hm⟩
    · have hs : (stepFn env s (.watcherFail f)).sinkLog = s.sinkLog := by simp [stepFn, hl]
      rw [hs]
      exact ⟨fun ty d hm => Or.inl hm, fun sn msg hm => hm⟩
  | endEvent w2 =>
    have hw : w2 ≠ w := fun he => hx (by rw [he])
    cases hc : alGet w2 s.collectors with
    | none =>
      have hs : (stepFn env s (.endEvent w2)).sinkLog = s.sinkLog := by simp [stepFn, hc]
      rw [hs]
      exact ⟨fun ty d hm => Or.inl hm, fun sn msg hm => hm⟩
    | some c =>
      rw [stepFn_end_sinkLog env s w2 c hc]
      constructor
      · intro ty d hm
        rcases List.mem_append.mp hm with hm1 | hm1
        · rcases List.mem_append.mp hm1 with hm2 | hm2
          · exact Or.inl hm2
          · obtain ⟨e, _, he⟩ := List.mem_map.mp hm2
            exact absurd (replay_emit_worker he) hw
        · split at hm1
          · simp at hm1
          · cases hm1
      · intro sn msg hm
        rcases List.mem_append.mp hm with hm1 | hm1
        · rcases List.mem_append.mp hm1 with hm2 | hm2
          · exact hm2
          · obtain ⟨e, _, he⟩ := List.mem_map.mp hm2
            exact absurd (replay_write_worker he) hw
        · split at hm1
          · simp at hm1
          · cases hm1

theorem noEarly_from (env : Env) (w : Nat) (steps : List Step) :
    ∀ s : GState, Step.endEvent w ∉ steps →
      (∀ ty d, SinkCall.emitEvent w ty d ∈ (runFrom env s steps).sinkLog →
        SinkCall.emitEvent w ty d ∈ s.sinkLog ∨ ty = EventType.failRetry)
      ∧ (∀ sn msg, SinkCall.writeStream w sn msg ∈ (runFrom env s steps).sinkLog →
          SinkCall.writeStream w sn msg ∈ s.sinkLog) := by
  induction steps with
  | nil =>
    intro s h
    exact ⟨fun ty d hm => Or.inl hm, fun sn msg hm => hm⟩
  | cons x t ih =>
    intro s h
    have hx : x ≠ Step.endEvent w := fun he => h (he ▸ List.mem_cons_self x t)
    have ht : Step.endEvent w ∉ t := fun he => h (List.mem_cons_of_mem x he)
    have ihs := ih (stepFn env s x) ht
    have hstep := noEarly_step env s w x hx
    rw [runFrom_cons]
    constructor
    · intro ty d hm
      rcases ihs.1 ty d hm with hin | hre
      · exact hstep.1 ty d hin
      · exact Or.inr hre
    · intro sn msg hm
      exact hstep.2 sn msg (ihs.2 sn msg hm)

/-! ## Singleton reporter invariant -/

theorem stepFn_construct_sinkLog_some (env : Env) (s : GState) (w : Nat) (fs : List String)
    (opts : ReporterOptions) (p : String) (hp : s.reporterInstance = some p) :
    (stepFn env s (.construct w fs opts)).sinkLog = s.sinkLog ++ [SinkCall.startCall w] := by
  cases fs <;> simp [stepFn, setReporterOnce, hp, detectFile]

theorem stepFn_construct_sinkLog_new (env : Env) (s : GState) (w : Nat) (fs : List String)
    (opts : ReporterOptions) (q : String) (hp : s.reporterInstance = none)
    (hres : resolveReporterPath env (effectiveReporterName opts.reporterName) = some q) :
    (stepFn env s (.construct w fs opts)).sinkLog
      = s.sinkLog ++ [SinkCall.newReporter q, SinkCall.startCall w] := by
  cases fs <;> simp [stepFn, setReporterOnce, hp, hres, detectFile]

theorem stepFn_construct_fail (env : Env) (s : GState) (w : Nat) (fs : List String)
    (opts : ReporterOptions) (hp : s.reporterInstance = none)
    (hres : resolveReporterPath env (effectiveReporterName opts.reporterName) = none) :
    stepFn env s (.construct w fs opts)
      = {s with thrown := s.thrown
          ++ ["Invalid reporter \"" ++ effectiveReporterName opts.reporterName ++ "\""]} := by
  simp [stepFn, setReporterOnce, hp, hres]

theorem stepFn_construct_instance_new (env : Env) (s : GState) (w : Nat) (fs : List String)
    (opts : ReporterOptions) (q : String) (hp : s.reporterInstance = none)
    (hres : resolveReporterPath env (effectiveReporterName opts.reporterName) = some q) :
    (stepFn env s (.construct w fs opts)).reporterInstance = some q := by
  cases fs <;> simp [stepFn, setReporterOnce, hp, hres, detectFile]

theorem instance_step (env : Env) (s : GState) (x : Step) (p : String)
    (hp : s.reporterInstance = some p) : (stepFn env s x).reporterInstance = some p := by
  cases x with
  | construct w fs opts => cases fs <;> simp [stepFn, setReporterOnce, hp, detectFile]
  | runnerEvent w ty d ts =>
    cases hc : alGet w s.collectors with
    | none => simpa [stepFn, hc] using hp
    | some c => cases ty <;> simpa [stepFn, hc] using hp
  | stdMessage f sn msg ts => exact hp
  | watcherFail f => by_cases hl : 0 < s.clearListeners <;> simpa [stepFn, hl] using hp
  | endEvent w =>
    cases hc : alGet w s.collectors with
    | none => simpa [stepFn, hc] using hp
    | some c =>
      simp only [stepFn, hc]
      split <;> exact hp

/-- Before the user reporter exists the sink was never touched and no
collector exists; once it exists, the sink log opens with exactly one
construction. -/
def SinkInv (s : GState) : Prop :=
  (s.reporterInstance = none → s.sinkLog = [] ∧ s.collectors = [])
  ∧ ∀ r, s.reporterInstance = some r →
      ∃ rest, s.sinkLog = SinkCall.newReporter r :: rest ∧ countNewReporters rest = 0

theorem sinkInv_step (env : Env) (s : GState) (x : Step) (h : SinkInv s) :
    SinkInv (stepFn env s x) := by
  obtain ⟨h1, h2⟩ := h
  cases x with
  | construct w fs opts =>
    cases hp : s.reporterInstance with
    | some p =>
      obtain ⟨rest, hlog, hcount⟩ := h2 p hp
      constructor
      · intro he
        rw [instance_step env s (.construct w fs opts) p hp] at he
        cases he
      · intro r hr
        rw [instance_step env s (.construct w fs opts) p hp] at hr
        have hrp : p = r := Option.some_inj.mp hr
        subst hrp
        refine ⟨rest ++ [SinkCall.startCall w], ?_, ?_⟩
        · rw [stepFn_construct_sinkLog_some env s w fs opts p hp, hlog]
          simp
        · rw [countNewReporters_append, hcount]
          rfl
    | none =>
      obtain ⟨hlog0, hcol0⟩ := h1 hp
      cases hres : resolveReporterPath env (effectiveReporterName opts.reporterName) with
      | some q =>
        constructor
        · intro he
          rw [stepFn_construct_instance_new env s w fs opts q hp hres] at he
          cases he
        · intro r hr
          rw [stepFn_construct_instance_new env s w fs opts q hp hres] at hr
          have hrq : q = r := Option.some_inj.mp hr
          subst hrq
          refine ⟨[SinkCall.startCall w], ?_, rfl⟩
          rw [stepFn_construct_sinkLog_new env s w fs opts q hp hres, hlog0]
          rfl
      | none =>
        rw [stepFn_construct_fail env s w fs opts hp hres]
        exact ⟨fun _ => ⟨hlog0, hcol0⟩, fun r hr => h2 r hr⟩
  | runnerEvent w ty d ts =>
    cases hc : alGet w s.collectors with
    | none =>
      have hstep : stepFn env s (.runnerEvent w ty d ts) = s := by simp [stepFn, hc]
      rw [hstep]
      exact ⟨h1, h2⟩
    | some c =>
      have hpnotnone : s.reporterInstance ≠ none := by
        intro he
        have := (h1 he).2
        rw [this] at hc
        cases hc
      constructor
      · intro he
        have hinst : (stepFn env s (.runnerEvent w ty d ts)).reporterInstance
            = s.reporterInstance := by
          cases ty <;> simp [stepFn, hc]
        rw [hinst] at he
        exact absurd he hpnotnone
      · intro r hr
        have hinst : (stepFn env s (.runnerEvent w ty d ts)).reporterInstance
            = s.reporterInstance := by
          cases ty <;> simp [stepFn, hc]
        rw [hinst] at hr
        obtain ⟨rest, hlog, hcount⟩ := h2 r hr
        have hsl : ∃ l, (stepFn env s (.runnerEvent w ty d ts)).sinkLog = s.sinkLog ++ l
            ∧ countNewReporters l = 0 := by
          cases ty
          case failRetry => exact ⟨[SinkCall.emitEvent w .failRetry d], by simp [stepFn, hc], rfl⟩
          all_goals exact ⟨[], by simp [stepFn, hc], rfl⟩
        obtain ⟨l, hsl1, hsl2⟩ := hsl
        refine ⟨rest ++ l, ?_, ?_⟩
        · rw [hsl1, hlog]
          simp
        · rw [countNewReporters_append, hcount, hsl2]
  | stdMessage f sn msg ts =>
    exact ⟨h1, h2⟩
  | watcherFail f =>
    by_cases hl : 0 < s.clearListeners
    · have hstep : stepFn env s (.watcherFail f)
          = {s with stdMessagesMap := alRemove f s.stdMessagesMap} := by simp [stepFn, hl]
      rw [hstep]
      exact ⟨fun he => h1 he, fun r hr => h2 r hr⟩
    · have hstep : stepFn env s (.watcherFail f) = s := by simp [stepFn, hl]
      rw [hstep]
      exact ⟨h1, h2⟩
  | endEvent w =>
    cases hc : alGet w s.collectors with
    | none =>
      have hstep : stepFn env s (.endEvent w) = s := by simp [stepFn, hc]
      rw [hstep]
      exact ⟨h1, h2⟩
    | some c =>
      have hpnotnone : s.reporterInstance ≠ none := by
        intro he
        have := (h1 he).2
        rw [this] at hc
        cases hc
      have hinst : (stepFn env s (.endEvent w)).reporterInstance = s.reporterInstance := by
        simp only [stepFn, hc]
        split <;> rfl
      constructor
      · intro he
        rw [hinst] at he
        exact absurd he hpnotnone
      · intro r hr
        rw [hinst] at hr
        obtain ⟨rest, hlog, hcount⟩ := h2 r hr
        rw [stepFn_end_sinkLog env s w c hc, hlog]
        refine ⟨rest
          ++ (sortMergedEvents (buildAllEvents c.eventsNotEmited
                (lookupMessages c.testFile s.stdMessagesMap))).map (replayCall w)
          ++ (if s.testsFinished + 1 = c.testsLength
              then [SinkCall.endRun s.failsOccured] else []), by simp, ?_⟩
        rw [countNewReporters_append, countNewReporters_append, hcount,
          countNewReporters_replay]
        split_ifs <;> rfl

theorem sinkInv_from (env : Env) (steps : List Step) :
    ∀ s : GState, SinkInv s → SinkInv (runFrom env s steps) := by
  induction steps with
  | nil => intro s h; exact h
  | cons x t ih =>
    intro s h
    rw [runFrom_cons]
    exact ih _ (sinkInv_step env s x h)

theorem sinkInv_init : SinkInv initState :=
  ⟨fun _ => ⟨rfl, rfl⟩, fun r hr => by cases hr⟩

theorem sinkInv_run (env : Env) (steps : List Step) : SinkInv (run env steps) :=
  sinkInv_from env steps initState sinkInv_init

theorem instance_from (env : Env) (steps : List Step) :
    ∀ (s : GState) (p : String), s.reporterInstance = some p →
      (runFrom env s steps).reporterInstance = some p := by
  induction steps with
  | nil => intro s p hp; exact hp
  | cons x t ih =>
    intro s p hp
    rw [runFrom_cons]
    exact ih _ p (instance_step env s x p hp)

/-! ## Unresolvable reporter names -/

/-- Per-step form of `allConstructsUse`. -/
def constructUsesName (name : String) : Step → Prop
  | .construct _ _ opts => effectiveReporterName opts.reporterName = name
  | _ => True

/-- Every construction of the trace is configured with this reporter name. -/
def allConstructsUse (name : String) (steps : List Step) : Bool :=
  steps.all fun st =>
    match st with
    | .construct _ _ opts => effectiveReporterName opts.reporterName == name
    | _ => true

/-- The trace contains at least one reporter construction. -/
def hasConstruct (steps : List Step) : Bool :=
  steps.any fun st =>
    match st with
    | .construct _ _ _ => true
    | _ => false

theorem allConstructsUse_cons {name : String} {x : Step} {t : List Step}
    (h : allConstructsUse name (x :: t) = true) :
    constructUsesName name x ∧ allConstructsUse name t = true := by
  rw [allConstructsUse, List.all_cons] at h
  simp only [Bool.and_eq_true] at h
  refine ⟨?_, h.2⟩
  cases x with
  | construct w fs opts => simpa [constructUsesName] using h.1
  | runnerEvent w ty d ts => trivial
  | stdMessage f sn msg ts => trivial
  | watcherFail f => trivial
  | endEvent w => trivial

/-- The step is not a construction that would resolve a reporter. -/
def noResolveOk (env : Env) : Step → Prop
  | .construct _ _ opts => resolvesOpts env opts = false
  | _ => True

theorem stepFn_none_instance (env : Env) (s : GState) (x : Step) (hp : s.reporterInstance = none)
    (hx : noResolveOk env x) : (stepFn env s x).reporterInstance = none := by
  cases x with
  | construct w fs opts =>
    have hres : resolveReporterPath env (effectiveReporterName opts.reporterName) = none := by
      cases hcase : resolveReporterPath env (effectiveReporterName opts.reporterName) with
      | none => rfl
      | some q =>
        have hx2 : resolvesOpts env opts = false := hx
        simp [resolvesOpts, hcase] at hx2
    rw [stepFn_construct_fail env s w fs opts hp hres]
    exact hp
  | runnerEvent w ty d ts =>
    cases hc : alGet w s.collectors with
    | none => simpa [stepFn, hc] using hp
    | some c => cases ty <;> simpa [stepFn, hc] using hp
  | stdMessage f sn msg ts => exact hp
  | watcherFail f => by_cases hl : 0 < s.clearListeners <;> simpa [stepFn, hl] using hp
  | endEvent w =>
    cases hc : alGet w s.collectors with
    | none => simpa [stepFn, hc] using hp
    | some c =>
      simp only [stepFn, hc]
      split <;> exact hp

theorem instance_none_from (env : Env) (name : String) (steps : List Step)
    (hres : resolveReporterPath env name = none) :
    ∀ s : GState, allConstructsUse name steps = true → s.reporterInstance = none →
      (runFrom env s steps).reporterInstance = none := by
  induction steps with
  | nil => intro s _ hp; exact hp
  | cons x t ih =>
    intro s hall hp
    obtain ⟨hx, ht⟩ := allConstructsUse_cons hall
    have hnr : noResolveOk env x := by
      cases x with
      | construct w fs opts =>
        have hname : effectiveReporterName opts.reporterName = name := hx
        show resolvesOpts env opts = false
        rw [resolvesOpts, hname, hres]
        rfl
      | runnerEvent w ty d ts => trivial
      | stdMessage f sn msg ts => trivial
      | watcherFail f => trivial
      | endEvent w => trivial
    rw [runFrom_cons]
    exact ih _ ht (stepFn_none_instance env s x hp hnr)

theorem thrown_step_mem (env : Env) (s : GState) (x : Step) (e : String) (he : e ∈ s.thrown) :
    e ∈ (stepFn env s x).thrown := by
  cases x with
  | construct w fs opts =>
    cases hp : s.reporterInstance with
    | some p =>
      have : (stepFn env s (.construct w fs opts)).thrown = s.thrown := by
        cases fs <;> simp [stepFn, setReporterOnce, hp, detectFile]
      rw [this]
      exact he
    | none =>
      cases hres : resolveReporterPath env (effectiveReporterName opts.reporterName) with
      | some q =>
        have : (stepFn env s (.construct w fs opts)).thrown = s.thrown := by
          cases fs <;> simp [stepFn, setReporterOnce, hp, hres, detectFile]
        rw [this]
        exact he
      | none =>
        rw [stepFn_construct_fail env s w fs opts hp hres]
        exact List.mem_append_left _ he
  | runnerEvent w ty d ts =>
    cases hc : alGet w s.collectors with
    | none => simpa [stepFn, hc] using he
    | some c => cases ty <;> simpa [stepFn, hc] using he
  | stdMessage f sn msg ts => exact he
  | watcherFail f => by_cases hl : 0 < s.clearListeners <;> simpa [stepFn, hl] using he
  | endEvent w =>
    cases hc : alGet w s.collectors with
    | none => simpa [stepFn, hc] using he
    | some c =>
      simp only [stepFn, hc]
      split <;> exact he

theorem thrown_from_mem (env : Env) (steps : List Step) :
    ∀ (s : GState) (e : String), e ∈ s.thrown → e ∈ (runFrom env s steps).thrown := by
  induction steps with
  | nil => intro s e he; exact he
  | cons x t ih =>
    intro s e he
    rw [runFrom_cons]
    exact ih _ e (thrown_step_mem env s x e he)

theorem invalid_throw_from (env : Env) (name : String) (steps : List Step)
    (hres : resolveReporterPath env name = none) :
    ∀ s : GState, allConstructsUse name steps = true → s.reporterInstance = none →
      hasConstruct steps = true →
      ("Invalid reporter \"" ++ name ++ "\"") ∈ (runFrom env s steps).thrown := by
  induction steps with
  | nil =>
    intro s _ _ hh
    cases hh
  | cons x t ih =>
    intro s hall hp hh
    obtain ⟨hx, ht⟩ := allConstructsUse_cons hall
    cases x with
    | construct w fs opts =>
      have hname : effectiveReporterName opts.reporterName = name := hx
      have hres2 : resolveReporterPath env (effectiveReporterName opts.reporterName) = none := by
        rw [hname]
        exact hres
      rw [runFrom_cons, stepFn_construct_fail env s w fs opts hp hres2]
      apply thrown_from_mem
      refine List.mem_append_right _ ?_
      rw [hname]
      exact List.mem_singleton_self _
    | runnerEvent w ty d ts =>
      have hh2 : hasConstruct t = true := by
        rw [hasConstruct, List.any_cons] at hh
        simpa [hasConstruct] using hh
      rw [runFrom_cons]
      exact ih _ ht (stepFn_none_instance env s _ hp trivial) hh2
    | stdMessage f sn msg ts =>
      have hh2 : hasConstruct t = true := by
        rw [hasConstruct, List.any_cons] at hh
        simpa [hasConstruct] using hh
      rw [runFrom_cons]
      exact ih _ ht (stepFn_none_instance env s _ hp trivial) hh2
    | watcherFail f =>
      have hh2 : hasConstruct t = true := by
        rw [hasConstruct, List.any_cons] at hh
        simpa [hasConstruct] using hh
      rw [runFrom_cons]
      exact ih _ ht (stepFn_none_instance env s _ hp trivial) hh2
    | endEvent w =>
      have hh2 : hasConstruct t = true := by
        rw [hasConstruct, List.any_cons] at hh
        simpa [hasConstruct] using hh
      rw [runFrom_cons]
      exact ih _ ht (stepFn_none_instance env s _ hp trivial) hh2

/-! ## Capture-buffer evolution -/

/-- The messages recorded for this file by the trace, in arrival order. -/
def messagesFor (f : String) : List Step → List CapturedMessage
  | [] => []
  | Step.stdMessage g sn m ts :: t =>
    if g = f then ⟨sn, m, ts⟩ :: messagesFor f t else messagesFor f t
  | _ :: t => messagesFor f t

/-- The step is not a watcher `fail` notification for this file. -/
def watcherFailOk (f : String) : Step → Prop
  | .watcherFail g => g ≠ f
  | _ => True

/-- No watcher `fail` notification for this file occurs in the trace. -/
def noWatcherFailFor (f : String) (steps : List Step) : Bool :=
  steps.all fun st =>
    match st with
    | .watcherFail g => if g = f then false else true
    | _ => true

/-- The step does not construct a collector for this worker. -/
def constructOkFor (w : Nat) : Step → Prop
  | .construct w2 _ _ => w2 ≠ w
  | _ => True

/-- The trace never constructs a collector for this worker. -/
def noConstructFor (w : Nat) (steps : List Step) : Bool :=
  steps.all fun st =>
    match st with
    | .construct w2 _ _ => if w2 = w then false else true
    | _ => true

theorem noWatcherFailFor_cons {f : String} {x : Step} {t : List Step}
    (h : noWatcherFailFor f (x :: t) = true) :
    watcherFailOk f x ∧ noWatcherFailFor f t = true := by
  rw [noWatcherFailFor, List.all_cons] at h
  simp only [Bool.and_eq_true] at h
  refine ⟨?_, h.2⟩
  cases x with
  | construct w fs opts => trivial
  | runnerEvent w ty d ts => trivial
  | stdMessage g sn msg ts => trivial
  | watcherFail g =>
    have h1 := h.1
    by_cases hg : g = f
    · simp [hg] at h1
    · exact hg
  | endEvent w => trivial

theorem noConstructFor_cons {w : Nat} {x : Step} {t : List Step}
    (h : noConstructFor w (x :: t) = true) :
    constructOkFor w x ∧ noConstructFor w t = true := by
  rw [noConstructFor, List.all_cons] at h
  simp only [Bool.and_eq_true] at h
  refine ⟨?_, h.2⟩
  cases x with
  | construct w2 fs opts =>
    have h1 := h.1
    by_cases hw : w2 = w
    · simp [hw] at h1
    · exact hw
  | runnerEvent w2 ty d ts => trivial
  | stdMessage g sn msg ts => trivial
  | watcherFail g => trivial
  | endEvent w2 => trivial

theorem stepFn_event_map (env : Env) (s : GState) (w : Nat) (ty : EventType) (d : Payload)
    (ts : Nat) : (stepFn env s (.runnerEvent w ty d ts)).stdMessagesMap = s.stdMessagesMap := by
  cases hc : alGet w s.collectors with
  | none => simp [stepFn, hc]
  | some c => cases ty <;> simp [stepFn, hc]

theorem stepFn_end_map (env : Env) (s : GState) (w : Nat) :
    (stepFn env s (.endEvent w)).stdMessagesMap = s.stdMessagesMap := by
  cases hc : alGet w s.collectors with
  | none => simp [stepFn, hc]
  | some c =>
    simp only [stepFn, hc]
    split <;> rfl

theorem mapEntry_from (env : Env) (f : String) (steps : List Step) :
    ∀ s : GState, noWatcherFailFor f steps = true →
      (alGet f (runFrom env s steps).stdMessagesMap).getD []
        = (alGet f s.stdMessagesMap).getD [] ++ messagesFor f steps := by
  induction steps with
  | nil =>
    intro s _
    simp [runFrom_nil, messagesFor]
  | cons x t ih =>
    intro s hn
    obtain ⟨hx, ht⟩ := noWatcherFailFor_cons hn
    rw [runFrom_cons]
    cases x with
    | construct w fs opts =>
      rw [ih _ ht, (stepFn_construct_counters env s w fs opts).2.2]
      rfl
    | runnerEvent w ty d ts =>
      rw [ih _ ht, stepFn_event_map env s w ty d ts]
      rfl
    | stdMessage g sn msg ts =>
      rw [ih _ ht]
      by_cases hg : g = f
      · subst hg
        have hrec : (stepFn env s (.stdMessage g sn msg ts)).stdMessagesMap
            = recordMessage g ⟨sn, msg, ts⟩ s.stdMessagesMap := rfl
        rw [hrec, recordMessage, alGet_put_self]
        have hmsgs : messagesFor g (Step.stdMessage g sn msg ts :: t)
            = ⟨sn, msg, ts⟩ :: messagesFor g t := by
          simp [messagesFor]
        rw [hmsgs]
        simp
      · have hrec : (stepFn env s (.stdMessage g sn msg ts)).stdMessagesMap
            = recordMessage g ⟨sn, msg, ts⟩ s.stdMessagesMap := rfl
        rw [hrec, recordMessage, alGet_put_ne hg]
        have hmsgs : messagesFor f (Step.stdMessage g sn msg ts :: t) = messagesFor f t := by
          simp [messagesFor, hg]
        rw [hmsgs]
    | watcherFail g =>
      have hg : g ≠ f := hx
      have hmap : alGet f (stepFn env s (.watcherFail g)).stdMessagesMap
          = alGet f s.stdMessagesMap := by
        by_cases hl : 0 < s.clearListeners
        · simp [stepFn, hl, alGet_remove_ne hg]
        · simp [stepFn, hl]
      rw [ih _ ht, hmap]
      rfl
    | endEvent w =>
      rw [ih _ ht, stepFn_end_map env s w]
      rfl

theorem watcherFail_clears (env : Env) (s : GState) (f : String) (hl : 0 < s.clearListeners) :
    alGet f (stepFn env s (.watcherFail f)).stdMessagesMap = none := by
  simp [stepFn, hl, alGet_remove_self]

theorem collector_stable_step (env : Env) (s : GState) (w : Nat) (x : Step)
    (hx : constructOkFor w x) (c : Collector) (hc : alGet w s.collectors = some c) :
    ∃ c2, alGet w (stepFn env s x).collectors = some c2
      ∧ c2.testFile = c.testFile ∧ c2.testsLength = c.testsLength := by
  cases x with
  | construct w2 fs opts =>
    have hw : w2 ≠ w := hx
    rcases stepFn_construct_collectors env s w2 fs opts with hcol | ⟨tf, hcol⟩
    · exact ⟨c, by rw [hcol]; exact hc, rfl, rfl⟩
    · refine ⟨c, ?_, rfl, rfl⟩
      rw [hcol, alGet_put_ne hw]
      exact hc
  | runnerEvent w2 ty d ts =>
    cases hc2 : alGet w2 s.collectors with
    | none =>
      have hcol : (stepFn env s (.runnerEvent w2 ty d ts)).collectors = s.collectors := by
        cases ty <;> simp [stepFn, hc2]
      exact ⟨c, by rw [hcol]; exact hc, rfl, rfl⟩
    | some c2 =>
      rw [stepFn_event_collectors env s w2 ty d ts c2 hc2]
      by_cases hw : w2 = w
      · subst hw
        have hcc : c2 = c := by
          rw [hc2] at hc
          exact Option.some_inj.mp hc
        subst hcc
        exact ⟨storeEventData c2 ty d ts, alGet_put_self _ _ _, rfl, rfl⟩
      · refine ⟨c, ?_, rfl, rfl⟩
        rw [alGet_put_ne hw]
        exact hc
  | stdMessage g sn msg ts => exact ⟨c, hc, rfl, rfl⟩
  | watcherFail g =>
    have hcol : (stepFn env s (.watcherFail g)).collectors = s.collectors := by
      by_cases hl : 0 < s.clearListeners <;> simp [stepFn, hl]
    exact ⟨c, by rw [hcol]; exact hc, rfl, rfl⟩
  | endEvent w2 =>
    exact ⟨c, by rw [stepFn_end_collectors env s w2]; exact hc, rfl, rfl⟩

theorem collector_stable_from (env : Env) (w : Nat) (steps : List Step) :
    ∀ (s : GState) (c : Collector), noConstructFor w steps = true →
      alGet w s.collectors = some c →
      ∃ c2, alGet w (runFrom env s steps).collectors = some c2
        ∧ c2.testFile = c.testFile ∧ c2.testsLength = c.testsLength := by
  induction steps with
  | nil => intro s c _ hc; exact ⟨c, hc, rfl, rfl⟩
  | cons x t ih =>
    intro s c hn hc
    obtain ⟨hx, ht⟩ := noConstructFor_cons hn
    obtain ⟨c2, hc2, htf, hlen⟩ := collector_stable_step env s w x hx c hc
    obtain ⟨c3, hc3, htf2, hlen2⟩ := ih (stepFn env s x) c2 ht hc2
    rw [runFrom_cons]
    exact ⟨c3, hc3, htf2.trans htf, hlen2.trans hlen⟩

theorem mem_tagStreamMessages_payload {e : MergedEvent} :
    ∀ {i : Nat} {l : List CapturedMessage}, e ∈ tagStreamMessages i l →
      ∃ mm ∈ l, e.payload = .stdStreamMessage mm.streamName mm.message := by
  intro i l
  induction l generalizing i with
  | nil => intro h; cases h
  | cons x t ih =>
    intro h
    rcases List.mem_cons.mp h with rfl | h2
    · exact ⟨x, List.mem_cons_self x t, rfl⟩
    · obtain ⟨mm, hmm, hp⟩ := ih h2
      exact ⟨mm, List.mem_cons_of_mem x hmm, hp⟩

theorem mem_tagRunnerEvents_payload {e : MergedEvent} :
    ∀ {i : Nat} {l : List StoredEvent}, e ∈ tagRunnerEvents i l →
      ∃ ev ∈ l, e.payload = .runnerEvent ev.type ev.data := by
  intro i l
  induction l generalizing i with
  | nil => intro h; cases h
  | cons x t ih =>
    intro h
    rcases List.mem_cons.mp h with rfl | h2
    · exact ⟨x, List.mem_cons_self x t, rfl⟩
    · obtain ⟨ev, hev, hp⟩ := ih h2
      exact ⟨ev, List.mem_cons_of_mem x hev, hp⟩

theorem mem_messagesFor {f : String} :
    ∀ {steps : List Step} {mm : CapturedMessage}, mm ∈ messagesFor f steps →
      Step.stdMessage f mm.streamName mm.message mm.timestamp ∈ steps := by
  intro steps
  induction steps with
  | nil => intro mm h; cases h
  | cons x t ih =>
    intro mm h
    cases x with
    | stdMessage g sn msg ts =>
      by_cases hg : g = f
      · subst hg
        rw [show messagesFor g (Step.stdMessage g sn msg ts :: t)
            = ⟨sn, msg, ts⟩ :: messagesFor g t from by simp [messagesFor]] at h
        rcases List.mem_cons.mp h with rfl | h2
        · exact List.mem_cons_self _ _
        · exact List.mem_cons_of_mem _ (ih h2)
      · rw [show messagesFor f (Step.stdMessage g sn msg ts :: t) = messagesFor f t from by
          simp [messagesFor, hg]] at h
        exact List.mem_cons_of_mem _ (ih h)
    | construct w fs opts => exact List.mem_cons_of_mem _ (ih h)
    | runnerEvent w ty d ts => exact List.mem_cons_of_mem _ (ih h)
    | watcherFail g => exact List.mem_cons_of_mem _ (ih h)
    | endEvent w => exact List.mem_cons_of_mem _ (ih h)

/-- Every stream write appended by a worker's `end` replay corresponds to a
message found for that worker's test file at replay time. -/
theorem endStep_write_origin (env : Env) (s : GState) (w : Nat) (c : Collector)
    (hc : alGet w s.collectors = some c) (w2 : Nat) (sn : StreamName) (msg : String)
    (hm : SinkCall.writeStream w2 sn msg ∈ (stepFn env s (.endEvent w)).sinkLog) :
    SinkCall.writeStream w2 sn msg ∈ s.sinkLog
    ∨ ∃ mm ∈ lookupMessages c.testFile s.stdMessagesMap,
        mm.streamName = sn ∧ mm.message = msg := by
  rw [stepFn_end_sinkLog env s w c hc] at hm
  rcases List.mem_append.mp hm with hm1 | hm1
  · rcases List.mem_append.mp hm1 with hm2 | hm2
    · exact Or.inl hm2
    · obtain ⟨e, hes, he⟩ := List.mem_map.mp hm2
      have hein : e ∈ buildAllEvents c.eventsNotEmited
          (lookupMessages c.testFile s.stdMessagesMap) :=
        (sortMergedEvents_perm _).subset hes
      have hpay : e.payload = .stdStreamMessage sn msg := by
        obtain ⟨p, meta⟩ := e
        cases p with
        | runnerEvent t2 d2 => simp [replayCall] at he
        | stdStreamMessage sn2 m2 =>
          simp [replayCall] at he
          rw [he.2.1, he.2.2]
      rcases List.mem_append.mp hein with hr | hs2
      · obtain ⟨ev, _, hp2⟩ := mem_tagRunnerEvents_payload hr
        rw [hpay] at hp2
        cases hp2
      · obtain ⟨mm, hmm, hp2⟩ := mem_tagStreamMessages_payload hs2
        rw [hpay] at hp2
        refine Or.inr ⟨mm, hmm, ?_, ?_⟩
        · cases hp2
          rfl
        · cases hp2
          rfl
  · split at hm1
    · simp at hm1
    · cases hm1

/-! ## Empty-suite collectors and retry pairs -/

theorem construct_empty_suites (env : Env) (s : GState) (w : Nat) (opts : ReporterOptions)
    (h : s.reporterInstance.isSome = true ∨ resolvesOpts env opts = true) :
    alGet w (stepFn env s (.construct w [] opts)).collectors = some ⟨none, [], opts.testsLength⟩
    ∧ (stepFn env s (.construct w [] opts)).clearListeners = s.clearListeners := by
  cases hp : s.reporterInstance with
  | some p =>
    constructor
    · simp [stepFn, setReporterOnce, hp, detectFile, alGet_put_self]
    · simp [stepFn, setReporterOnce, hp, detectFile]
  | none =>
    have hres : ∃ q, resolveReporterPath env (effectiveReporterName opts.reporterName) = some q := by
      rcases h with h | h
      · rw [hp] at h
        cases h
      · rw [resolvesOpts] at h
        exact Option.isSome_iff_exists.mp h
    obtain ⟨q, hq⟩ := hres
    constructor
    · simp [stepFn, setReporterOnce, hp, hq, detectFile, alGet_put_self]
    · simp [stepFn, setReporterOnce, hp, hq, detectFile]

theorem endStep_empty_testFile (env : Env) (s : GState) (w : Nat) (c : Collector)
    (hc : alGet w s.collectors = some c) (htf : c.testFile = none) :
    (stepFn env s (.endEvent w)).sinkLog
      = s.sinkLog ++ (sortMergedEvents (buildAllEvents c.eventsNotEmited [])).map (replayCall w)
        ++ (if s.testsFinished + 1 = c.testsLength then [SinkCall.endRun s.failsOccured] else [])
    ∧ (∀ cl ∈ (sortMergedEvents (buildAllEvents c.eventsNotEmited [])).map (replayCall w),
        ∃ ty d, cl = SinkCall.emitEvent w ty d)
    ∧ (stepFn env s (.endEvent w)).thrown = s.thrown := by
  refine ⟨?_, ?_, ?_⟩
  · have hlog := stepFn_end_sinkLog env s w c hc
    rw [htf] at hlog
    simpa [lookupMessages] using hlog
  · intro cl hcl
    obtain ⟨e, hes, he⟩ := List.mem_map.mp hcl
    have hein : e ∈ buildAllEvents c.eventsNotEmited [] :=
      (sortMergedEvents_perm _).subset hes
    rcases List.mem_append.mp hein with hr | hs2
    · obtain ⟨ev, _, hp2⟩ := mem_tagRunnerEvents_payload hr
      obtain ⟨p, meta⟩ := e
      have hp3 : p = MergedPayload.runnerEvent ev.type ev.data := hp2
      subst hp3
      refine ⟨ev.type, ev.data, ?_⟩
      rw [← he]
      rfl
    · cases hs2
  · simp only [stepFn, hc]
    split <;> rfl

theorem watcherFail_noListeners (env : Env) (s : GState) (f : String)
    (hl : s.clearListeners = 0) : stepFn env s (.watcherFail f) = s := by
  simp [stepFn, hl]

theorem failRetryPair_net (env : Env) (s : GState) (w : Nat) (d d2 : Payload) (t1 t2 : Nat)
    (hc : (alGet w s.collectors).isSome = true) :
    (runFrom env s
      [Step.runnerEvent w .fail d t1, Step.runnerEvent w .failRetry d2 t2]).failsOccured
      = s.failsOccured := by
  obtain ⟨c, hcc⟩ := Option.isSome_iff_exists.mp hc
  show (stepFn env (stepFn env s (.runnerEvent w .fail d t1))
    (.runnerEvent w .failRetry d2 t2)).failsOccured = s.failsOccured
  have h1 : stepFn env s (.runnerEvent w .fail d t1)
      = {s with collectors := alPut w (storeEventData c .fail d t1) s.collectors,
                failsOccured := s.failsOccured + 1} := by
    simp [stepFn, hcc]
  rw [h1]
  have h2 : alGet w (alPut w (storeEventData c .fail d t1) s.collectors)
      = some (storeEventData c .fail d t1) := alGet_put_self _ _ _
  simp [stepFn, h2]

/-- A call that delivers test output: a re-emitted event, a stream write, or
the final `end` call. -/
def isDeliveryCall : SinkCall → Prop
  | .emitEvent _ _ _ => True
  | .writeStream _ _ _ => True
  | .endRun _ => True
  | _ => False

/-! ## Completion barrier of the runner (absent from src) -/

inductive BarrierPhase
  | collecting
  | finalized
deriving DecidableEq, Repr

structure Barrier where
  phase : BarrierPhase
  completions : Nat
  expected : Nat
  finalizeCalls : List Int
  sinkInteractions : List SinkCall
deriving DecidableEq, Repr

/-- Modelled from the spec: the Completion Barrier initialisation of the
process runner (`lib/runner.js` / `lib/bin-helper.js`, which are not under
`src/`; `src/lib/reporter.js` only finalises from inside a worker `end`
handler, so the zero-worker case is decided by the missing runner code).
Spec §4.4: the barrier "starts in `Collecting` with CompletionCounter = 0
and a fixed ExpectedWorkerCount ... If ExpectedWorkerCount is zero,
finalize fires immediately with FailureCounter = 0", and §8.6: with "no
Sink interaction". -/
def mkBarrier (expected : Nat) : Barrier :=
  if expected = 0 then ⟨.finalized, 0, 0, [0], []⟩
  else ⟨.collecting, 0, expected, [], []⟩

/-! ## Concrete fixtures -/

/-- An environment in which only the built-in `spec` reporter loads. -/
def envSpec : Env := ⟨fun s => s == "mocha/lib/reporters/spec", fun n => "/cwd/" ++ n⟩

/-- An environment in which no reporter path loads. -/
def envNone : Env := ⟨fun _ => false, fun n => "/cwd/" ++ n⟩

def evC1 : List StoredEvent := [⟨.test, ["a"], 10⟩, ⟨.pass, ["b"], 5⟩]

def msC1 : List CapturedMessage := [⟨.stdout, "x", 7⟩]

def stepsC2 : List Step :=
  [Step.construct 0 ["a.js"] ⟨none, 2⟩,
   Step.runnerEvent 0 .fail ["e"] 5,
   Step.runnerEvent 0 .failRetry ["e"] 6,
   Step.stdMessage "a.js" .stdout "m" 7]

def steps3 : List Step :=
  [Step.construct 0 ["a.js"] ⟨none, 2⟩,
   Step.construct 1 ["b.js"] ⟨none, 2⟩,
   Step.endEvent 0,
   Step.endEvent 1]

def p3 : List Step :=
  [Step.construct 0 ["a.js"] ⟨none, 2⟩,
   Step.construct 1 ["b.js"] ⟨none, 2⟩,
   Step.endEvent 0]

def p1C4 : List Step :=
  [Step.construct 0 ["f.js"] ⟨none, 1⟩, Step.stdMessage "f.js" .stdout "old" 5]

def p2C4 : List Step := [Step.stdMessage "f.js" .stdout "new" 30]

def cC4 : Collector := ⟨some "f.js", [], 1⟩

def traceC6 : List Step :=
  [Step.construct 0 ["f.js"] ⟨none, 1⟩,
   Step.runnerEvent 0 .test ["e1"] 10,
   Step.runnerEvent 0 .test ["e2"] 20,
   Step.runnerEvent 0 .test ["e3"] 20,
   Step.stdMessage "f.js" .stdout "m1" 20,
   Step.stdMessage "f.js" .stdout "m2" 15,
   Step.endEvent 0]

def stepsC9 : List Step := [Step.construct 0 ["a.js"] ⟨some "bogus", 1⟩]

def optsC10 : ReporterOptions := ⟨none, 2⟩

def preC10 : List Step :=
  [Step.construct 0 ["a.js"] optsC10,
   Step.construct 1 [] optsC10,
   Step.stdMessage "b.js" .stdout "hello" 7]

def sC10 : GState := run envSpec [Step.construct 0 [] optsC10]

/-! ## Claims -/

/-- C1: In `onCompletion`, the merged sequence of a worker's buffered
lifecycle events and its captured messages is sorted with primary key
timestamp ascending; on equal timestamps a lifecycle event (weight 1) sorts
after a captured message (weight 0); on equal weights the original
buffering index ascending decides; and because same-type entries of the
merge set always carry distinct indices, this order is deterministic: any
sorted permutation of the merge set equals the sort's output. -/
theorem claimC1 (events : List StoredEvent) (messages : List CapturedMessage) :
    (sortMergedEvents (buildAllEvents events messages)).Perm (buildAllEvents events messages)
    ∧ (sortMergedEvents (buildAllEvents events messages)).Pairwise mergeKeyLE
    ∧ ∀ l : List MergedEvent, l.Perm (buildAllEvents events messages) →
        l.Pairwise mergeKeyLE → l = sortMergedEvents (buildAllEvents events messages) :=
  ⟨sortMergedEvents_perm _, sortMergedEvents_sorted _,
   fun l hp hs => sortMergedEvents_unique events messages l hp hs⟩

/-- Witness for C1 at a concrete merge set. -/
theorem claimC1_witness :
    (sortMergedEvents (buildAllEvents evC1 msC1)).Perm (buildAllEvents evC1 msC1)
    ∧ (sortMergedEvents (buildAllEvents evC1 msC1)).Pairwise mergeKeyLE
    ∧ [⟨.runnerEvent .pass ["b"], ⟨1, 5⟩⟩, ⟨.stdStreamMessage .stdout "x", ⟨0, 7⟩⟩,
       ⟨.runnerEvent .test ["a"], ⟨0, 10⟩⟩]
        = sortMergedEvents (buildAllEvents evC1 msC1) :=
  ⟨(claimC1 evC1 msC1).1, (claimC1 evC1 msC1).2.1,
   (claimC1 evC1 msC1).2.2 _ (by decide) (by decide)⟩

/-- C2: for a worker whose `end` event has not fired, the sink log contains
no forwarded lifecycle event of that worker other than `failRetry`, and no
write of that worker's captured messages: `failRetry` is the only event
kind forwarded to the wrapped runner before completion. -/
theorem claimC2 (env : Env) (steps : List Step) (w : Nat) (h : Step.endEvent w ∉ steps) :
    (∀ ty d, SinkCall.emitEvent w ty d ∈ (run env steps).sinkLog → ty = EventType.failRetry)
    ∧ ∀ sn msg, SinkCall.writeStream w sn msg ∉ (run env steps).sinkLog := by
  have hh := noEarly_from env w steps initState h
  constructor
  · intro ty d hm
    rcases hh.1 ty d hm with hin | hre
    · cases hin
    · exact hre
  · intro sn msg hm
    have := hh.2 sn msg hm
    cases this

/-- Witness for C2 on a trace whose worker 0 never ends. -/
theorem claimC2_witness :
    EventType.failRetry = EventType.failRetry
    ∧ SinkCall.writeStream 0 StreamName.stdout "m" ∉ (run envSpec stepsC2).sinkLog :=
  ⟨(claimC2 envSpec stepsC2 0 (by decide)).1 EventType.failRetry ["e"] (by decide),
   (claimC2 envSpec stepsC2 0 (by decide)).2 StreamName.stdout "m"⟩

/-- C3: on a well-formed trace in which every construction carries
`testsLength = n`, the completion counter equals the number of worker
completions (it is incremented exactly once per completion); it never
exceeds `n` on any prefix when at most `n` completions occur; finalisation
(`end` on the wrapped runner) is logged exactly once, iff the completion
count reaches `n`; and it is invoked at the completion making the counter
`n`, with failure argument equal to the number of `fail` events minus the
number of `failRetry` events observed so far. -/
theorem claimC3 (env : Env) (steps : List Step) (n : Nat)
    (hok : (mirrorRun env steps).ok = true)
    (huni : uniformLenB n steps = true) :
    ((run env steps).testsFinished = countEnds steps)
    ∧ (countEnds steps ≤ n → ∀ p q, steps = p ++ q → (run env p).testsFinished ≤ n)
    ∧ (countEndRuns (run env steps).sinkLog = if 0 < n ∧ n ≤ countEnds steps then 1 else 0)
    ∧ (∀ p q w, steps = p ++ Step.endEvent w :: q → countEnds p = n - 1 → 0 < n →
        ∃ replayed, (run env (p ++ [Step.endEvent w])).sinkLog
            = (run env p).sinkLog ++ replayed
              ++ [SinkCall.endRun ((countFails p : Int) - (countRetries p : Int))]
          ∧ countEndRuns replayed = 0) := by
  have hc1 := (counters_from env steps initState ⟨false, [], true⟩ coupled_init hok).1
  have hc1b : (run env steps).testsFinished = countEnds steps := by
    simpa [run, initState] using hc1
  refine ⟨hc1b, ?_, ?_, ?_⟩
  · intro hle p q hpq
    subst hpq
    have hokp : (mirrorFrom env ⟨false, [], true⟩ p).ok = true :=
      mirrorFrom_ok_of_append env _ p q hok
    have hcp := (counters_from env p initState ⟨false, [], true⟩ coupled_init hokp).1
    have hcpb : (run env p).testsFinished = countEnds p := by
      simpa [run, initState] using hcp
    rw [hcpb]
    have hsum : countEnds (p ++ q) = countEnds p + countEnds q := List.countP_append _ _ _
    omega
  · have h3 := endRuns_from env n steps initState ⟨false, [], true⟩ coupled_init hok huni
      (fun w c hc => by cases hc)
    simpa [run, initState, countEndRuns, List.countP_nil] using h3
  · intro p q w hpq hcp hn
    have hsplit : steps = (p ++ [Step.endEvent w]) ++ q := by
      rw [hpq]
      simp
    have hokp2 : (mirrorFrom env ⟨false, [], true⟩ (p ++ [Step.endEvent w])).ok = true := by
      apply mirrorFrom_ok_of_append env _ _ q
      rw [← hsplit]
      exact hok
    have hokp : (mirrorFrom env ⟨false, [], true⟩ p).ok = true :=
      mirrorFrom_ok_of_append env _ p [Step.endEvent w] hokp2
    have hunip : uniformLenB n p = true := by
      rw [hpq, uniformLenB, List.all_append] at huni
      simp only [Bool.and_eq_true] at huni
      exact huni.1
    have hcoup : Coupled (run env p) (mirrorFrom env ⟨false, [], true⟩ p) :=
      coupled_from env p coupled_init
    have hstep_ok : (mirrorStep env (mirrorFrom env ⟨false, [], true⟩ p)
        (Step.endEvent w)).ok = true := by
      have heq : mirrorFrom env ⟨false, [], true⟩ (p ++ [Step.endEvent w])
          = mirrorStep env (mirrorFrom env ⟨false, [], true⟩ p) (Step.endEvent w) := by
        rw [mirrorFrom_append]
        rfl
      rw [← heq]
      exact hokp2
    have hmemB : memB w (mirrorFrom env ⟨false, [], true⟩ p).workers = true := by
      have hx2 : ((mirrorFrom env ⟨false, [], true⟩ p).ok
          && memB w (mirrorFrom env ⟨false, [], true⟩ p).workers) = true := hstep_ok
      have hand : (mirrorFrom env ⟨false, [], true⟩ p).ok = true
          ∧ memB w (mirrorFrom env ⟨false, [], true⟩ p).workers = true := by
        simpa using hx2
      exact hand.2
    obtain ⟨c, hcw⟩ := alGet_isSome_of_memB hcoup.2 hmemB
    have hcn : c.testsLength = n :=
      collectorLen_from env n p initState hunip (fun w2 c2 hc2 => by cases hc2) w c hcw
    have hctr := counters_from env p initState ⟨false, [], true⟩ coupled_init hokp
    have htf : (run env p).testsFinished = countEnds p := by
      simpa [run, initState] using hctr.1
    have hfo : (run env p).failsOccured = (countFails p : Int) - (countRetries p : Int) := by
      simpa [run, initState] using hctr.2
    have hend := stepFn_end_sinkLog env (run env p) w c hcw
    have hfin : (run env p).testsFinished + 1 = c.testsLength := by
      rw [htf, hcn]
      omega
    rw [if_pos hfin] at hend
    refine ⟨(sortMergedEvents (buildAllEvents c.eventsNotEmited
        (lookupMessages c.testFile (run env p).stdMessagesMap))).map (replayCall w),
      ?_, countEndRuns_replay _ _⟩
    rw [run_append]
    show (stepFn env (run env p) (Step.endEvent w)).sinkLog = _
    rw [hend, hfo]

/-- Witness for C3 on a two-worker trace with `testsLength = 2`. -/
theorem claimC3_witness :
    ((run envSpec steps3).testsFinished = countEnds steps3)
    ∧ (∃ replayed, (run envSpec (p3 ++ [Step.endEvent 1])).sinkLog
        = (run envSpec p3).sinkLog ++ replayed
          ++ [SinkCall.endRun ((countFails p3 : Int) - (countRetries p3 : Int))]
        ∧ countEndRuns replayed = 0) :=
  ⟨(claimC3 envSpec steps3 2 (by decide) (by decide)).1,
   (claimC3 envSpec steps3 2 (by decide) (by decide)).2.2.2 p3 [] 1 (by decide) (by decide)
     (by decide)⟩

/-- C4: if a worker's collector has detected its test file (so the
retry-clear listener is registered) and the watcher signals a retried
failure for that file, then all captured messages recorded for that file so
far are discarded (the buffer entry is gone); every stream write of that
worker's final replay stems from a message recorded after the retry signal,
so discarded messages never reach the replay; and a `fail` immediately
followed by a `failRetry` leaves the process-wide failure counter unchanged
(+1 then −1). -/
theorem claimC4 (env : Env) (p1 p2 : List Step) (w : Nat) (f : String) (c : Collector)
    (hc : alGet w (run env p1).collectors = some c)
    (htf : c.testFile = some f)
    (hl : 0 < (run env p1).clearListeners)
    (hnw : noWatcherFailFor f p2 = true)
    (hnc : noConstructFor w p2 = true) :
    alGet f (run env (p1 ++ [Step.watcherFail f])).stdMessagesMap = none
    ∧ (∀ sn msg, SinkCall.writeStream w sn msg
          ∈ (run env ((p1 ++ Step.watcherFail f :: p2) ++ [Step.endEvent w])).sinkLog →
        SinkCall.writeStream w sn msg ∈ (run env (p1 ++ Step.watcherFail f :: p2)).sinkLog
        ∨ ∃ ts, Step.stdMessage f sn msg ts ∈ p2)
    ∧ (∀ (s : GState) (d d2 : Payload) (t1 t2 : Nat), (alGet w s.collectors).isSome = true →
        (runFrom env s
          [Step.runnerEvent w .fail d t1, Step.runnerEvent w .failRetry d2 t2]).failsOccured
          = s.failsOccured) := by
  have hclear : alGet f (run env (p1 ++ [Step.watcherFail f])).stdMessagesMap = none := by
    rw [run_append]
    show alGet f (stepFn env (run env p1) (Step.watcherFail f)).stdMessagesMap = none
    exact watcherFail_clears env (run env p1) f hl
  refine ⟨hclear, ?_, fun s d d2 t1 t2 hcs => failRetryPair_net env s w d d2 t1 t2 hcs⟩
  intro sn msg hm
  have hmid : run env (p1 ++ Step.watcherFail f :: p2)
      = runFrom env (stepFn env (run env p1) (Step.watcherFail f)) p2 := by
    rw [List.append_cons p1 (Step.watcherFail f) p2, run_append, run_append]
    rfl
  have hcAfter : alGet w (stepFn env (run env p1) (Step.watcherFail f)).collectors = some c := by
    have hcol : (stepFn env (run env p1) (Step.watcherFail f)).collectors
        = (run env p1).collectors := by
      by_cases hl2 : 0 < (run env p1).clearListeners <;> simp [stepFn, hl2]
    rw [hcol]
    exact hc
  obtain ⟨c2, hc2, htf2, _⟩ :=
    collector_stable_from env w p2 (stepFn env (run env p1) (Step.watcherFail f)) c hnc hcAfter
  have hcmid : alGet w (run env (p1 ++ Step.watcherFail f :: p2)).collectors = some c2 := by
    rw [hmid]
    exact hc2
  have hrun : run env ((p1 ++ Step.watcherFail f :: p2) ++ [Step.endEvent w])
      = stepFn env (run env (p1 ++ Step.watcherFail f :: p2)) (Step.endEvent w) := by
    rw [run_append]
    rfl
  rw [hrun] at hm
  rcases endStep_write_origin env _ w c2 hcmid w sn msg hm with hin | ⟨mm, hmm, hsn, hmsg⟩
  · exact Or.inl hin
  · rw [htf2, htf] at hmm
    have hmap : (alGet f (run env (p1 ++ Step.watcherFail f :: p2)).stdMessagesMap).getD []
        = messagesFor f p2 := by
      rw [hmid, mapEntry_from env f p2 (stepFn env (run env p1) (Step.watcherFail f)) hnw,
        watcherFail_clears env (run env p1) f hl]
      rfl
    have hmm2 : mm ∈ messagesFor f p2 := by
      rw [← hmap]
      simpa [lookupMessages] using hmm
    have hstep := mem_messagesFor hmm2
    rw [hsn, hmsg] at hstep
    exact Or.inr ⟨mm.timestamp, hstep⟩

/-- Witness for C4: a message recorded before the retry signal is discarded. -/
theorem claimC4_witness :
    alGet "f.js" (run envSpec (p1C4 ++ [Step.watcherFail "f.js"])).stdMessagesMap = none :=
  (claimC4 envSpec p1C4 p2C4 0 "f.js" cC4 (by decide) rfl (by decide) (by decide) (by decide)).1

/-- C5: across any trace, the pluggable formatter is constructed at most
once; whenever some construction resolved it, the sink log opens with
exactly that single construction (reused thereafter: the instance never
changes once set), and the construction precedes every delivery call
(re-emitted event, stream write, or finalisation) in the log. -/
theorem claimC5 (env : Env) (steps : List Step) :
    countNewReporters (run env steps).sinkLog ≤ 1
    ∧ ((mirrorRun env steps).reporterSet = true →
        ∃ r rest, (run env steps).sinkLog = SinkCall.newReporter r :: rest
          ∧ countNewReporters rest = 0 ∧ (run env steps).reporterInstance = some r)
    ∧ (∀ p q r, steps = p ++ q → (run env p).reporterInstance = some r →
        (run env steps).reporterInstance = some r)
    ∧ (∀ a cl b, (run env steps).sinkLog = a ++ cl :: b → isDeliveryCall cl →
        ∃ r, SinkCall.newReporter r ∈ a) := by
  obtain ⟨hi1, hi2⟩ := sinkInv_run env steps
  refine ⟨?_, ?_, ?_, ?_⟩
  · cases hp : (run env steps).reporterInstance with
    | none =>
      rw [(hi1 hp).1]
      simp [countNewReporters]
    | some r =>
      obtain ⟨rest, hlog, hcount⟩ := hi2 r hp
      rw [hlog]
      have hcc : countNewReporters (SinkCall.newReporter r :: rest)
          = countNewReporters rest + 1 := by
        simp [countNewReporters, List.countP_cons, isNewReporterCall]
      rw [hcc, hcount]
  · intro hset
    have hiso : (run env steps).reporterInstance.isSome = true := by
      rw [(coupled_run env steps).1]
      exact hset
    obtain ⟨r, hp⟩ := Option.isSome_iff_exists.mp hiso
    obtain ⟨rest, hlog, hcount⟩ := hi2 r hp
    exact ⟨r, rest, hlog, hcount, hp⟩
  · intro p q r hpq hp
    rw [hpq, run_append]
    exact instance_from env q (run env p) r hp
  · intro a cl b hlog hdel
    cases hp : (run env steps).reporterInstance with
    | none =>
      rw [(hi1 hp).1] at hlog
      exact absurd hlog.symm (by simp)
    | some r =>
      obtain ⟨rest, hlog2, hcount⟩ := hi2 r hp
      have hcombined : SinkCall.newReporter r :: rest = a ++ cl :: b := hlog2.symm.trans hlog
      cases a with
      | nil =>
        have hcl : SinkCall.newReporter r = cl := by
          have := hcombined
          simp at this
          exact this.1
        rw [← hcl] at hdel
        exact absurd hdel (by intro hx; exact hx)
      | cons a0 a2 =>
        have ha0 : a0 = SinkCall.newReporter r := by
          have := hcombined
          simp at this
          exact this.1.symm
        exact ⟨r, by rw [ha0]; exact List.mem_cons_self _ _⟩

/-- Witness for C5 on a two-worker trace. -/
theorem claimC5_witness :
    (∃ r rest, (run envSpec steps3).sinkLog = SinkCall.newReporter r :: rest
      ∧ countNewReporters rest = 0 ∧ (run envSpec steps3).reporterInstance = some r)
    ∧ (run envSpec steps3).reporterInstance = some "mocha/lib/reporters/spec" :=
  ⟨(claimC5 envSpec steps3).2.1 (by decide),
   (claimC5 envSpec steps3).2.2.1 [Step.construct 0 ["a.js"] ⟨none, 2⟩]
     [Step.construct 1 ["b.js"] ⟨none, 2⟩, Step.endEvent 0, Step.endEvent 1]
     "mocha/lib/reporters/spec" (by decide) (by decide)⟩

/-- C6 counterexample: with lifecycle events at timestamps [10,20,20] and
captured messages at [20,15], the replay order produced by the code is
event@10, msg@15, msg@20, event@20(first), event@20(second) — not the
claimed msg@15, event@10, msg@20, event@20(first), event@20(second). -/
theorem claimC6_counterexample :
    (run envSpec traceC6).sinkLog
      = [SinkCall.newReporter "mocha/lib/reporters/spec", SinkCall.startCall 0,
         SinkCall.emitEvent 0 .test ["e1"], SinkCall.writeStream 0 .stdout "m2",
         SinkCall.writeStream 0 .stdout "m1", SinkCall.emitEvent 0 .test ["e2"],
         SinkCall.emitEvent 0 .test ["e3"], SinkCall.endRun 0]
    ∧ (run envSpec traceC6).sinkLog
      ≠ [SinkCall.newReporter "mocha/lib/reporters/spec", SinkCall.startCall 0,
         SinkCall.writeStream 0 .stdout "m2", SinkCall.emitEvent 0 .test ["e1"],
         SinkCall.writeStream 0 .stdout "m1", SinkCall.emitEvent 0 .test ["e2"],
         SinkCall.emitEvent 0 .test ["e3"], SinkCall.endRun 0] := by
  constructor
  · rfl
  · decide

/-- C6 amended: for a single worker whose buffered lifecycle events carry
timestamps [10,20,20] and whose captured messages carry timestamps [20,15]
in arrival order, the replay order produced by `onCompletion` is: event@10,
message@15, message@20, event@20(first), event@20(second). -/
theorem claimC6_amended :
    (run envSpec traceC6).sinkLog
      = [SinkCall.newReporter "mocha/lib/reporters/spec", SinkCall.startCall 0,
         SinkCall.emitEvent 0 .test ["e1"], SinkCall.writeStream 0 .stdout "m2",
         SinkCall.writeStream 0 .stdout "m1", SinkCall.emitEvent 0 .test ["e2"],
         SinkCall.emitEvent 0 .test ["e3"], SinkCall.endRun 0] := rfl

/-- C7: with an expected worker count of zero the Completion Barrier of the
runner (modelled from the spec, the runner is not under `src/`) finalises
immediately: it starts already in the `finalized` phase, its single
finalize call carries failure count 0, and no Aggregate Sink interaction
occurs. -/
theorem claimC7 :
    (mkBarrier 0).phase = BarrierPhase.finalized
    ∧ (mkBarrier 0).finalizeCalls = [(0 : Int)]
    ∧ (mkBarrier 0).sinkInteractions = ([] : List SinkCall)
    ∧ (mkBarrier 0).completions = 0 :=
  ⟨rfl, rfl, rfl, rfl⟩

/-- C8 counterexample: after a single reporter construction and before any
worker completion, the formatter instance already exists — refuting "no
formatter instance exists until some worker has signalled completion". -/
theorem claimC8_counterexample :
    (run envSpec [Step.construct 0 ["a.js"] ⟨none, 2⟩]).reporterInstance.isSome = true
    ∧ (run envSpec [Step.construct 0 ["a.js"] ⟨none, 2⟩]).testsFinished = 0 :=
  ⟨rfl, rfl⟩

/-- C8 amended: the formatter singleton is constructed eagerly at the first
successful collector construction (when the first worker's reporter is
instantiated, before that worker completes), not at the first completion:
after any trace an instance exists exactly when some construction step
resolved a reporter. -/
theorem claimC8_amended (env : Env) (steps : List Step) :
    (run env steps).reporterInstance.isSome = (mirrorRun env steps).reporterSet :=
  (coupled_run env steps).1

/-- C9: reporter resolution tries, in order, the built-in mocha reporter
path, the name as an installed package, and the name resolved against the
working directory; the first candidate that loads wins; and if every
candidate fails, every run whose constructions use that name throws
`Invalid reporter "name"` while the sink log stays empty — the error
precedes any replay. -/
theorem claimC9 (env : Env) (name : String) (steps : List Step) :
    resolveReporterPath env name
      = (if env.loads ("mocha/lib/reporters/" ++ name) = true
         then some ("mocha/lib/reporters/" ++ name)
         else if env.loads name = true then some name
         else if env.loads (env.cwdResolve name) = true then some (env.cwdResolve name)
         else none)
    ∧ (resolveReporterPath env name = none → allConstructsUse name steps = true →
        hasConstruct steps = true →
        ("Invalid reporter \"" ++ name ++ "\"") ∈ (run env steps).thrown
        ∧ (run env steps).sinkLog = []) := by
  constructor
  · rw [resolveReporterPath, reporterTryPaths]
    by_cases h1 : env.loads ("mocha/lib/reporters/" ++ name) = true
    · rw [List.find?_cons_of_pos _ h1, if_pos h1]
    · rw [List.find?_cons_of_neg _ h1, if_neg h1]
      by_cases h2 : env.loads name = true
      · rw [List.find?_cons_of_pos _ h2, if_pos h2]
      · rw [List.find?_cons_of_neg _ h2, if_neg h2]
        by_cases h3 : env.loads (env.cwdResolve name) = true
        · rw [List.find?_cons_of_pos _ h3, if_pos h3]
        · rw [List.find?_cons_of_neg _ h3, if_neg h3]
          rfl
  · intro hres hall hhas
    refine ⟨invalid_throw_from env name steps hres initState hall rfl hhas, ?_⟩
    have hnone : (run env steps).reporterInstance = none :=
      instance_none_from env name steps hres initState hall rfl
    exact ((sinkInv_run env steps).1 hnone).1

/-- Witness for C9: an unresolvable reporter name throws before any sink
activity. -/
theorem claimC9_witness :
    ("Invalid reporter \"" ++ "bogus" ++ "\"") ∈ (run envNone stepsC9).thrown
    ∧ (run envNone stepsC9).sinkLog = [] :=
  (claimC9 envNone "bogus" stepsC9).2 (by decide) (by decide) (by decide)

/-- C10 counterexample: worker 1 has an empty root suite (its collector
records no test file and its construction registers no retry-clear
listener), yet a later retry signal for its file does clear its captured
messages, because worker 0 (with a nonempty root suite) registered the
listener, which deletes whatever file the signal names. -/
theorem claimC10_counterexample :
    alGet 1 (run envSpec preC10).collectors = some ⟨none, [], 2⟩
    ∧ (run envSpec [Step.construct 1 [] optsC10]).clearListeners = 0
    ∧ (alGet "b.js" (run envSpec preC10).stdMessagesMap).getD []
        = [⟨StreamName.stdout, "hello", 7⟩]
    ∧ alGet "b.js" (run envSpec (preC10 ++ [Step.watcherFail "b.js"])).stdMessagesMap = none
    ∧ alGet "b.js" (run envSpec preC10).stdMessagesMap
        ≠ alGet "b.js" (run envSpec (preC10 ++ [Step.watcherFail "b.js"])).stdMessagesMap := by
  refine ⟨rfl, rfl, rfl, rfl, ?_⟩
  decide

/-- C10 amended: a collector whose runner root suite has no child suites
records no worker identity (test-file key `none`) and registers no
retry-clear listener; at completion the merge looks up captured messages
under the undefined key, falls back to the empty list, and the replay emits
only the buffered lifecycle events — no captured output and no error. A
later retry signal leaves the capture buffer untouched only when no
collector at all has registered the clear listener; a listener registered
by any other collector clears whatever file the signal names. -/
theorem claimC10_amended (env : Env) (s : GState) (w : Nat) (opts : ReporterOptions) :
    ((s.reporterInstance.isSome = true ∨ resolvesOpts env opts = true) →
      alGet w (stepFn env s (.construct w [] opts)).collectors
          = some ⟨none, [], opts.testsLength⟩
        ∧ (stepFn env s (.construct w [] opts)).clearListeners = s.clearListeners)
    ∧ (∀ c, alGet w s.collectors = some c → c.testFile = none →
        (stepFn env s (.endEvent w)).sinkLog
          = s.sinkLog
            ++ (sortMergedEvents (buildAllEvents c.eventsNotEmited [])).map (replayCall w)
            ++ (if s.testsFinished + 1 = c.testsLength
                then [SinkCall.endRun s.failsOccured] else [])
        ∧ (∀ cl ∈ (sortMergedEvents (buildAllEvents c.eventsNotEmited [])).map (replayCall w),
            ∃ ty d, cl = SinkCall.emitEvent w ty d)
        ∧ (stepFn env s (.endEvent w)).thrown = s.thrown)
    ∧ (∀ f, s.clearListeners = 0 → stepFn env s (.watcherFail f) = s) :=
  ⟨construct_empty_suites env s w opts,
   fun c hcc htf => endStep_empty_testFile env s w c hcc htf,
   fun f hl => watcherFail_noListeners env s f hl⟩

/-- Witness for the amended C10 on a concrete empty-suite collector. -/
theorem claimC10_amended_witness :
    (alGet 0 (stepFn envSpec sC10 (.construct 0 [] optsC10)).collectors
        = some ⟨none, [], optsC10.testsLength⟩
      ∧ (stepFn envSpec sC10 (.construct 0 [] optsC10)).clearListeners = sC10.clearListeners)
    ∧ (stepFn envSpec sC10 (.endEvent 0)).thrown = sC10.thrown
    ∧ stepFn envSpec sC10 (.watcherFail "x.js") = sC10 :=
  ⟨(claimC10_amended envSpec sC10 0 optsC10).1 (by decide),
   ((claimC10_amended envSpec sC10 0 optsC10).2.1 ⟨none, [], 2⟩ (by decide) rfl).2.2,
   (claimC10_amended envSpec sC10 0 optsC10).2.2 "x.js" (by decide)⟩

end Reporter
